import Mathlib

/-!
Verification of the learning-management system's core logic: the deterministic
ENT-combination scoring engine, the questionnaire seed reconciler, the quiz
attempt lifecycle (start/submit), and the homework submission/grading flow.

Each definition is a shallow embedding of the corresponding Python function in
`app.py` / `models.py`.  Python dicts with string keys are modelled as
association lists (`List (String × _)`) preserving insertion order; database
tables are lists of row structures; autoincrement primary keys are modelled by
an explicit next-id counter; fallible request handlers return `Except`.
-/

namespace UniversitySystem

/-! ### Combination catalog

`ENT_COMBINATIONS` in `app.py` is a dict from combination key to metadata
(title, careers, faculties, ...).  The scoring engine only ever uses
`ENT_COMBINATIONS.keys()`, so the embedding keeps just the key list, in the
dict's declaration (= iteration) order. -/

def ENT_COMBINATION_KEYS : List String :=
  ["math_inf", "math_phys", "math_geo", "bio_chem", "bio_geo", "chem_phys",
   "geo_foreign", "geo_hist", "hist_law", "foreign_hist", "kaz_lit", "rus_lit",
   "creative"]

/-! ### Scoring engine (`calculate_ai_scores`) -/

/-- Row of the `ai_answer` table (`AIAnswer` in `models.py`): an answer choice
with a JSON mapping of per-combination integer weights. -/
structure AIAnswerRow where
  id : Nat
  question_id : Nat
  text : String
  scores : List (String × Int)
  deriving Repr, DecidableEq

/-- `base_scores[comb] += weight` guarded by `if comb in base_scores`: update
the (unique) entry with the given key, or do nothing when the key is absent. -/
def bumpKey (k : String) (w : Int) : List (String × Int) → List (String × Int)
  | [] => []
  | (k2, v) :: rest => if k2 = k then (k2, v + w) :: rest else (k2, v) :: bumpKey k w rest

/-- The inner loop `for comb, weight in (ans.scores or {}).items(): ...` of
`calculate_ai_scores`. -/
def applyWeights (sc : List (String × Int)) (ps : List (String × Int)) : List (String × Int) :=
  ps.foldl (fun acc p => bumpKey p.1 p.2 acc) sc

/-- One step of a stable descending insertion sort on the score component:
the new element goes after every element with a score ≥ its own. -/
def insertDesc (x : String × Int) : List (String × Int) → List (String × Int)
  | [] => [x]
  | y :: ys => if x.2 ≤ y.2 then y :: insertDesc x ys else x :: y :: ys

/-- Model of Python's stable `sorted(pairs, key=lambda kv: kv[1], reverse=True)`:
a stable sort, descending on the score, ties keeping the input order. -/
def sortDesc (l : List (String × Int)) : List (String × Int) :=
  l.foldl (fun acc x => insertDesc x acc) []

/-- `calculate_ai_scores(answer_ids)` from `app.py`.  `db` is the `ai_answer`
table; `answer_ids` the selected answer identifiers.  Returns the score mapping
(in catalog key order) and the `top3` list of (key, score) pairs. -/
def calculate_ai_scores (answer_ids : List Nat) (db : List AIAnswerRow) :
    List (String × Int) × List (String × Int) :=
  let base := ENT_COMBINATION_KEYS.map (fun k => (k, (0 : Int)))
  if answer_ids = [] then (base, [])
  else
    let answers := db.filter (fun a => a.id ∈ answer_ids)
    let scores := answers.foldl (fun acc a => applyWeights acc a.scores) base
    (scores, (sortDesc scores).take 3)

/-- Sum of the values of a score mapping (`sum(scores.values())`). -/
def sumValues (l : List (String × Int)) : Int :=
  (l.map (fun p => p.2)).sum

/-! Basic facts about `bumpKey` / `applyWeights`. -/

theorem bumpKey_keys (k : String) (w : Int) :
    ∀ sc : List (String × Int), (bumpKey k w sc).map Prod.fst = sc.map Prod.fst := by
  intro sc
  induction sc with
  | nil => rfl
  | cons p rest ih =>
    obtain ⟨k2, v⟩ := p
    by_cases h : k2 = k <;> simp [bumpKey, h, ih]

theorem sumValues_bumpKey (k : String) (w : Int) (sc : List (String × Int)) :
    sumValues (bumpKey k w sc) =
      sumValues sc + (if k ∈ sc.map Prod.fst then w else 0) := by
  induction sc with
  | nil => simp [bumpKey, sumValues]
  | cons p rest ih =>
    obtain ⟨k2, v⟩ := p
    by_cases h : k2 = k
    · subst h
      simp [bumpKey, sumValues]
      ring
    · simp only [bumpKey, if_neg h, sumValues, List.map_cons, List.sum_cons] at *
      have hne : ¬ k = k2 := fun hh => h hh.symm
      have hcond : (k ∈ k2 :: List.map Prod.fst rest) = (k ∈ List.map Prod.fst rest) := by
        simp [List.mem_cons, hne]
      rw [ih]
      simp only [hcond]
      ring

theorem applyWeights_keys (sc ps : List (String × Int)) :
    (applyWeights sc ps).map Prod.fst = sc.map Prod.fst := by
  induction ps generalizing sc with
  | nil => rfl
  | cons p rest ih =>
    simp only [applyWeights, List.foldl_cons] at *
    rw [ih, bumpKey_keys]

theorem sumValues_applyWeights (sc ps : List (String × Int)) :
    sumValues (applyWeights sc ps) =
      sumValues sc + sumValues (ps.filter (fun p => p.1 ∈ sc.map Prod.fst)) := by
  induction ps generalizing sc with
  | nil => simp [applyWeights, sumValues]
  | cons p rest ih =>
    simp only [applyWeights, List.foldl_cons] at *
    rw [ih]
    by_cases h : p.1 ∈ sc.map Prod.fst
    · rw [sumValues_bumpKey, bumpKey_keys]
      simp only [List.filter_cons]
      simp [sumValues, h]
      ring
    · rw [sumValues_bumpKey, bumpKey_keys]
      simp only [List.filter_cons]
      simp [sumValues, h]

/-- Contribution of one answer row: the sum of its weights restricted to
catalog keys. -/
def catalogContribution (a : AIAnswerRow) : Int :=
  sumValues (a.scores.filter (fun p => p.1 ∈ ENT_COMBINATION_KEYS))

theorem foldl_applyWeights_keys (answers : List AIAnswerRow) (sc : List (String × Int)) :
    (answers.foldl (fun acc a => applyWeights acc a.scores) sc).map Prod.fst =
      sc.map Prod.fst := by
  induction answers generalizing sc with
  | nil => rfl
  | cons a rest ih =>
    simp only [List.foldl_cons]
    rw [ih, applyWeights_keys]

theorem foldl_applyWeights_sum (answers : List AIAnswerRow) (sc : List (String × Int)) :
    sumValues (answers.foldl (fun acc a => applyWeights acc a.scores) sc) =
      sumValues sc +
        (answers.map (fun a =>
          sumValues (a.scores.filter (fun p => p.1 ∈ sc.map Prod.fst)))).sum := by
  induction answers generalizing sc with
  | nil => simp
  | cons a rest ih =>
    simp only [List.foldl_cons, List.map_cons, List.sum_cons]
    rw [ih, sumValues_applyWeights, applyWeights_keys]
    ring

theorem sumValues_base :
    sumValues (ENT_COMBINATION_KEYS.map (fun k => (k, (0 : Int)))) = 0 := by
  unfold sumValues
  rw [List.map_map]
  have h0 : ((fun p : String × Int => p.2) ∘ fun k : String => (k, (0 : Int))) =
      fun _ => (0 : Int) := rfl
  rw [h0]
  simp

theorem base_keys :
    (ENT_COMBINATION_KEYS.map (fun k => (k, (0 : Int)))).map Prod.fst =
      ENT_COMBINATION_KEYS := by
  rw [List.map_map]
  have h : (Prod.fst ∘ fun k : String => (k, (0 : Int))) = id := rfl
  rw [h, List.map_id]

/-- The score mapping always carries exactly the catalog keys, in catalog
order (spec: "scores always contains every catalog key"). -/
theorem scores_keys (answer_ids : List Nat) (db : List AIAnswerRow) :
    (calculate_ai_scores answer_ids db).1.map Prod.fst = ENT_COMBINATION_KEYS := by
  unfold calculate_ai_scores
  by_cases h : answer_ids = []
  · simp only [h, ite_true]
    exact base_keys
  · simp only [h, ite_false]
    rw [foldl_applyWeights_keys, base_keys]

/-- C2: for every set of selected answer ids, the total of the returned score
mapping equals the sum of the weights contributed by the selected answers
restricted to catalog keys; weights under keys not in the catalog contribute
nothing, and (the scoring function being total) no error is raised for them.
(With an empty selection both sides are zero, since no row matches an empty id
set.) -/
theorem C2_sum_scores_eq (answer_ids : List Nat) (db : List AIAnswerRow) :
    sumValues (calculate_ai_scores answer_ids db).1 =
      ((db.filter (fun a => a.id ∈ answer_ids)).map catalogContribution).sum := by
  unfold calculate_ai_scores
  by_cases h : answer_ids = []
  · subst h
    have hfil : db.filter (fun a => decide (a.id ∈ ([] : List Nat))) = [] := by
      simp
    simp only [ite_true, hfil, List.map_nil, List.sum_nil]
    exact sumValues_base
  · simp only [h, ite_false]
    rw [foldl_applyWeights_sum, base_keys]
    rw [sumValues_base, zero_add]
    rfl

/-! ### Ranking (`top3`) — C3

The claimed characterization of `top3`: the 3 highest-scoring (key, score)
pairs, descending by score, ties broken by the catalog's key enumeration
order.  `rankBefore a b` states that pair `a` legitimately ranks strictly
before pair `b` under that order. -/

/-- Position of a key in the catalog's enumeration order. -/
def catalogIdx (k : String) : Nat := ENT_COMBINATION_KEYS.indexOf k

/-- `a` ranks strictly before `b`: higher score, or equal score and earlier
catalog position. -/
def rankBefore (a b : String × Int) : Prop :=
  b.2 < a.2 ∨ (a.2 = b.2 ∧ catalogIdx a.1 < catalogIdx b.1)

theorem insertDesc_perm (x : String × Int) (l : List (String × Int)) :
    (insertDesc x l).Perm (x :: l) := by
  induction l with
  | nil => simp [insertDesc]
  | cons y ys ih =>
    by_cases h : x.2 ≤ y.2
    · simp only [insertDesc, if_pos h]
      exact (List.Perm.cons y ih).trans (List.Perm.swap x y ys)
    · simp only [insertDesc, if_neg h]
      exact List.Perm.refl _

theorem mem_insertDesc {z x : String × Int} {l : List (String × Int)} :
    z ∈ insertDesc x l ↔ z = x ∨ z ∈ l := by
  rw [(insertDesc_perm x l).mem_iff]
  simp

theorem foldl_insertDesc_perm (l : List (String × Int)) :
    ∀ acc, (l.foldl (fun acc x => insertDesc x acc) acc).Perm (acc ++ l) := by
  induction l with
  | nil => intro acc; simp
  | cons x xs ih =>
    intro acc
    simp only [List.foldl_cons]
    exact (ih (insertDesc x acc)).trans
      (((insertDesc_perm x acc).append_right xs).trans List.perm_middle.symm)

theorem sortDesc_perm (l : List (String × Int)) : (sortDesc l).Perm l := by
  simpa using foldl_insertDesc_perm l []

theorem rankBefore_score_le {a b : String × Int} (h : rankBefore a b) : b.2 ≤ a.2 := by
  rcases h with h | ⟨h, _⟩
  · exact le_of_lt h
  · exact le_of_eq h.symm

theorem insertDesc_pairwise {x : String × Int} {l : List (String × Int)}
    (hl : l.Pairwise rankBefore)
    (hx : ∀ y ∈ l, x.2 = y.2 → catalogIdx y.1 < catalogIdx x.1) :
    (insertDesc x l).Pairwise rankBefore := by
  induction l with
  | nil => simp [insertDesc]
  | cons y ys ih =>
    rcases List.pairwise_cons.1 hl with ⟨hy, hys⟩
    by_cases h : x.2 ≤ y.2
    · simp only [insertDesc, if_pos h]
      refine List.pairwise_cons.2 ⟨?_, ?_⟩
      · intro z hz
        rcases mem_insertDesc.1 hz with rfl | hz
        · rcases lt_or_eq_of_le h with hlt | heq
          · exact Or.inl hlt
          · exact Or.inr ⟨heq.symm, hx y (List.mem_cons_self y ys) heq⟩
        · exact hy z hz
      · exact ih hys (fun z hz hez => hx z (List.mem_cons_of_mem y hz) hez)
    · push_neg at h
      simp only [insertDesc, if_neg (not_le.2 h)]
      refine List.pairwise_cons.2 ⟨?_, hl⟩
      intro z hz
      rcases List.mem_cons.1 hz with rfl | hz
      · exact Or.inl h
      · exact Or.inl (lt_of_le_of_lt (rankBefore_score_le (hy z hz)) h)

theorem foldl_insertDesc_pairwise (l : List (String × Int)) :
    ∀ acc, acc.Pairwise rankBefore →
      (∀ y ∈ acc, ∀ x ∈ l, catalogIdx y.1 < catalogIdx x.1) →
      l.Pairwise (fun a b => catalogIdx a.1 < catalogIdx b.1) →
      (l.foldl (fun acc x => insertDesc x acc) acc).Pairwise rankBefore := by
  induction l with
  | nil => intro acc hacc _ _; simpa using hacc
  | cons x xs ih =>
    intro acc hacc hcross hl
    rcases List.pairwise_cons.1 hl with ⟨hxxs, hxs⟩
    simp only [List.foldl_cons]
    refine ih (insertDesc x acc) ?_ ?_ hxs
    · exact insertDesc_pairwise hacc
        (fun y hy _ => hcross y hy x (List.mem_cons_self x xs))
    · intro y hy z hz
      rcases mem_insertDesc.1 hy with rfl | hy
      · exact hxxs z hz
      · exact hcross y hy z (List.mem_cons_of_mem x hz)

theorem sortDesc_pairwise {l : List (String × Int)}
    (hl : l.Pairwise (fun a b => catalogIdx a.1 < catalogIdx b.1)) :
    (sortDesc l).Pairwise rankBefore := by
  exact foldl_insertDesc_pairwise l [] (List.Pairwise.nil) (by simp) hl

theorem catalog_pairwise :
    ENT_COMBINATION_KEYS.Pairwise (fun a b => catalogIdx a < catalogIdx b) := by
  decide

/-- C3 counterexample: with an empty selection every returned score is 0 — a
full tie — yet `top3` is the empty list, not the first 3 catalog keys. -/
theorem C3_empty_selection_counterexample :
    (calculate_ai_scores [] []).2 = [] ∧
      (∀ p ∈ (calculate_ai_scores [] []).1, p.2 = 0) ∧
      (calculate_ai_scores [] []).2.length ≠ 3 := by
  refine ⟨rfl, ?_, by decide⟩
  decide

/-- C3 (amended): for every non-empty selection, `top3` consists of entries of
the returned score mapping, has length exactly 3, is strictly ranked (higher
score first, ties by catalog enumeration order), and every score-mapping entry
left out of `top3` ranks strictly after every member of `top3` — i.e. `top3`
is exactly the 3 highest-scoring pairs under the claimed order.  (With an
empty selection `top3` is `[]`; see the counterexample.) -/
theorem C3_top3_characterization (answer_ids : List Nat) (db : List AIAnswerRow)
    (h : answer_ids ≠ []) :
    ((calculate_ai_scores answer_ids db).2.length = 3) ∧
      (∀ p ∈ (calculate_ai_scores answer_ids db).2,
        p ∈ (calculate_ai_scores answer_ids db).1) ∧
      (calculate_ai_scores answer_ids db).2.Pairwise rankBefore ∧
      (∀ p ∈ (calculate_ai_scores answer_ids db).1,
        p.1 ∉ (calculate_ai_scores answer_ids db).2.map Prod.fst →
        ∀ q ∈ (calculate_ai_scores answer_ids db).2, rankBefore q p) := by
  have hkeys : (calculate_ai_scores answer_ids db).1.map Prod.fst =
      ENT_COMBINATION_KEYS := scores_keys answer_ids db
  have hsnd : (calculate_ai_scores answer_ids db).2 =
      (sortDesc (calculate_ai_scores answer_ids db).1).take 3 := by
    unfold calculate_ai_scores
    simp only [h, ite_false]
  set scores := (calculate_ai_scores answer_ids db).1 with hscores
  have hperm : (sortDesc scores).Perm scores := sortDesc_perm scores
  have hlen13 : scores.length = 13 := by
    have := congrArg List.length hkeys
    simpa using this
  have hpw : scores.Pairwise (fun a b => catalogIdx a.1 < catalogIdx b.1) := by
    have hcat := catalog_pairwise
    rw [← hkeys] at hcat
    exact List.Pairwise.of_map Prod.fst (fun a b hab => hab) hcat
  have hsorted : (sortDesc scores).Pairwise rankBefore := sortDesc_pairwise hpw
  have hsplit : sortDesc scores = (sortDesc scores).take 3 ++ (sortDesc scores).drop 3 :=
    (List.take_append_drop 3 (sortDesc scores)).symm
  have hsortlen : (sortDesc scores).length = 13 := hperm.length_eq.trans hlen13
  refine ⟨?_, ?_, ?_, ?_⟩
  · rw [hsnd, List.length_take, hsortlen]
    decide
  · intro p hp
    rw [hsnd] at hp
    exact hperm.mem_iff.1 (List.mem_of_mem_take hp)
  · rw [hsnd]
    exact hsorted.sublist (List.take_sublist 3 (sortDesc scores))
  · intro p hp hnot q hq
    rw [hsnd] at hq hnot
    have hpmem : p ∈ sortDesc scores := hperm.mem_iff.2 hp
    have hpdrop : p ∈ (sortDesc scores).drop 3 := by
      rcases (List.mem_append.1 (hsplit ▸ hpmem)) with htake | hdrop
      · exact absurd (List.mem_map_of_mem Prod.fst htake) hnot
      · exact hdrop
    have := (List.pairwise_append.1 (hsplit ▸ hsorted)).2.2
    exact this q hq p hpdrop

/-- Witness for C3 at a concrete input: one selected id against an empty
answer table — every score is 0, and `top3` is the first 3 catalog keys. -/
theorem C3_top3_characterization_witness :
    ((calculate_ai_scores [1] []).2.length = 3) ∧
      (∀ p ∈ (calculate_ai_scores [1] []).2,
        p ∈ (calculate_ai_scores [1] []).1) ∧
      (calculate_ai_scores [1] []).2.Pairwise rankBefore ∧
      (∀ p ∈ (calculate_ai_scores [1] []).1,
        p.1 ∉ (calculate_ai_scores [1] []).2.map Prod.fst →
        ∀ q ∈ (calculate_ai_scores [1] []).2, rankBefore q p) :=
  C3_top3_characterization [1] [] (by decide)

/-! ### Attempt lifecycle (`start_test` / `submit_test`)

Rows of the `question`, `option`, `attempt` and `attempt_answer` tables
(`models.py`), restricted to the columns the handlers read or write. -/

/-- Row of the `question` table (only `id` matters to the submit logic). -/
structure QuestionRow where
  id : Nat
  deriving Repr, DecidableEq

/-- Row of the `option` table (`Option` model). -/
structure OptionRow where
  id : Nat
  question_id : Nat
  is_correct : Bool
  deriving Repr, DecidableEq

/-- Row of the `attempt` table. -/
structure AttemptRow where
  id : Nat
  test_id : Nat
  student_id : Nat
  started_at : Nat
  finished_at : Option Nat
  score : Nat
  deriving Repr, DecidableEq

/-- Row of the `attempt_answer` table (autoincrement id omitted: the handlers
never read it). -/
structure AttemptAnswerRow where
  attempt_id : Nat
  question_id : Nat
  option_id : Nat
  deriving Repr, DecidableEq

/-- Attempt-related persistent state: the `attempt` and `attempt_answer`
tables plus the autoincrement counter for attempt ids. -/
structure AttemptState where
  attempts : List AttemptRow
  attemptAnswers : List AttemptAnswerRow
  nextAttemptId : Nat
  deriving Repr, DecidableEq

/-- `Attempt.query.get(aid)`: primary-key lookup. -/
def findAttempt (attempts : List AttemptRow) (aid : Nat) : Option AttemptRow :=
  attempts.find? (fun a => a.id = aid)

/-- `Option.query.get(oid)`: primary-key lookup. -/
def findOption (options : List OptionRow) (oid : Nat) : Option OptionRow :=
  options.find? (fun o => o.id = oid)

/-- Session lookup `session.get(f"attempt_test_{id}")` followed by the truthy
check `if aid:` (`None` and `0` are both falsy) and `Attempt.query.get`. -/
def sessionAttempt (attempts : List AttemptRow) (sess : Option Nat) : Option AttemptRow :=
  match sess with
  | none => none
  | some aid => if aid = 0 then none else findAttempt attempts aid

/-- The per-question loop of `submit_test`: for each question read the
submitted option id from the form, skip unanswered questions, look the option
up (a missing option row is a hard error — the handler dereferences `None`),
record an `AttemptAnswer` when an attempt is bound, and count correct
options.  Returns the recorded rows and the score. -/
def answerLoop (options : List OptionRow) (form : Nat → Option Nat)
    (attemptId : Option Nat) :
    List QuestionRow → List AttemptAnswerRow → Nat →
    Except Unit (List AttemptAnswerRow × Nat)
  | [], rows, score => .ok (rows, score)
  | q :: qs, rows, score =>
    match form q.id with
    | none => answerLoop options form attemptId qs rows score
    | some oid =>
      match findOption options oid with
      | none => .error ()
      | some opt =>
        let rows := match attemptId with
          | some aid => rows ++ [⟨aid, q.id, opt.id⟩]
          | none => rows
        answerLoop options form attemptId qs rows
          (if opt.is_correct then score + 1 else score)

/-- `submit_test` (`app.py`): score a submitted quiz.  `student_id` is `some`
for a student actor and `none` for a non-student (preview) actor; `sess` is
the session-bound attempt id for this quiz; `now` models
`datetime.utcnow()`.  Returns the computed score, the question count, and the
updated state — or an error when a submitted option id does not resolve. -/
def submit_test (questions : List QuestionRow) (options : List OptionRow)
    (form : Nat → Option Nat) (student_id : Option Nat) (sess : Option Nat)
    (st : AttemptState) (test_id now : Nat) :
    Except Unit (Nat × Nat × AttemptState) :=
  let total := questions.length
  match student_id with
  | none =>
    -- preview actor: no Attempt is bound, nothing is written
    match answerLoop options form none questions [] 0 with
    | .error e => .error e
    | .ok (_, score) => .ok (score, total, st)
  | some sid =>
    let (attempt, st1) :=
      match sessionAttempt st.attempts sess with
      | some a => (a, st)
      | none =>
        let a : AttemptRow :=
          ⟨st.nextAttemptId, test_id, sid, now, none, 0⟩
        (a, { st with attempts := st.attempts ++ [a],
                      nextAttemptId := st.nextAttemptId + 1 })
    match answerLoop options form (some attempt.id) questions [] 0 with
    | .error e => .error e
    | .ok (rows, score) =>
      .ok (score, total,
        { st1 with
          attempts := st1.attempts.map (fun a =>
            if a.id = attempt.id then
              { a with score := score, finished_at := some now }
            else a),
          attemptAnswers := st1.attemptAnswers ++ rows })

/-- Result of `start_test` for a student actor. -/
structure StartResult where
  attemptId : Nat
  remaining : Option Int
  sess : Option Nat
  state : AttemptState
  deriving Repr, DecidableEq

/-- `start_test` (`app.py`), student path: reuse the session-bound attempt if
it resolves, otherwise create a fresh `Attempt` (with `started_at = now`) and
bind its id into the session.  `remaining_seconds` is
`max(0, duration*60 - elapsed)` when the quiz has a (truthy, i.e. nonzero)
duration. -/
def start_test (duration_minutes : Option Nat) (student_id : Nat)
    (sess : Option Nat) (st : AttemptState) (test_id now : Nat) : StartResult :=
  let (attempt, sess1, st1) :=
    match sessionAttempt st.attempts sess with
    | some a => (a, sess, st)
    | none =>
      let a : AttemptRow := ⟨st.nextAttemptId, test_id, student_id, now, none, 0⟩
      (a, some a.id,
        { st with attempts := st.attempts ++ [a],
                  nextAttemptId := st.nextAttemptId + 1 })
  let remaining : Option Int :=
    match duration_minutes with
    | none => none
    | some m =>
      if m = 0 then none
      else some (max 0 ((attempt.started_at : Int) + m * 60 - now))
  ⟨attempt.id, remaining, sess1, st1⟩

/-- A question counts as answered when the form carries a selected option id
for it (`request.form.get(f"question_{q.id}")` truthy). -/
def answeredQ (form : Nat → Option Nat) (q : QuestionRow) : Bool :=
  (form q.id).isSome

/-- The submitted option for this question resolves and `is_correct` holds. -/
def answeredCorrectly (options : List OptionRow) (form : Nat → Option Nat)
    (q : QuestionRow) : Bool :=
  match form q.id with
  | none => false
  | some oid =>
    match findOption options oid with
    | none => false
    | some opt => opt.is_correct

/-- The form selects an option id for this question that has no `Option` row. -/
def missingOption (options : List OptionRow) (form : Nat → Option Nat)
    (q : QuestionRow) : Bool :=
  match form q.id with
  | none => false
  | some oid => (findOption options oid).isNone

theorem answerLoop_ok_spec (options : List OptionRow) (form : Nat → Option Nat)
    (attemptId : Option Nat) (qs : List QuestionRow) :
    ∀ rows score rows2 score2,
      answerLoop options form attemptId qs rows score = .ok (rows2, score2) →
      score2 = score + qs.countP (answeredCorrectly options form) ∧
      rows2.length = rows.length +
        (match attemptId with
         | some _ => qs.countP (answeredQ form)
         | none => 0) := by
  induction qs with
  | nil =>
    intro rows score rows2 score2 h
    simp only [answerLoop, Except.ok.injEq, Prod.mk.injEq] at h
    obtain ⟨h1, h2⟩ := h
    subst h1; subst h2
    cases attemptId <;> simp
  | cons q qs ih =>
    intro rows score rows2 score2 h
    rw [answerLoop] at h
    cases hform : form q.id with
    | none =>
      simp only [hform] at h
      have := ih rows score rows2 score2 h
      have hq : answeredCorrectly options form q = false := by
        simp [answeredCorrectly, hform]
      have ha : answeredQ form q = false := by
        simp [answeredQ, hform]
      rw [List.countP_cons, List.countP_cons, hq, ha]
      cases attemptId <;> simp at this ⊢ <;> omega
    | some oid =>
      simp only [hform] at h
      cases hopt : findOption options oid with
      | none =>
        simp only [hopt] at h
        exact absurd h (by simp)
      | some opt =>
        simp only [hopt] at h
        have hq : answeredCorrectly options form q = opt.is_correct := by
          simp [answeredCorrectly, hform, hopt]
        have ha : answeredQ form q = true := by
          simp [answeredQ, hform]
        rw [List.countP_cons, List.countP_cons, hq, ha]
        cases hatt : attemptId with
        | none =>
          subst hatt
          simp only at h
          have := ih rows (if opt.is_correct then score + 1 else score) rows2 score2 h
          rcases this with ⟨h1, h2⟩
          constructor
          · cases hc : opt.is_correct <;> rw [hc] at h1 <;> simp [h1] <;> omega
          · simpa using h2
        | some aid =>
          subst hatt
          simp only at h
          have := ih (rows ++ [⟨aid, q.id, opt.id⟩])
            (if opt.is_correct then score + 1 else score) rows2 score2 h
          rcases this with ⟨h1, h2⟩
          constructor
          · cases hc : opt.is_correct <;> rw [hc] at h1 <;> simp [h1] <;> omega
          · simp at h2
            simp [h2]
            omega

theorem answerLoop_error_iff (options : List OptionRow) (form : Nat → Option Nat)
    (attemptId : Option Nat) (qs : List QuestionRow) :
    ∀ rows score,
      (answerLoop options form attemptId qs rows score = .error ()) ↔
        qs.any (missingOption options form) = true := by
  induction qs with
  | nil =>
    intro rows score
    simp [answerLoop]
  | cons q qs ih =>
    intro rows score
    rw [answerLoop, List.any_cons]
    cases hform : form q.id with
    | none =>
      have hq : missingOption options form q = false := by
        simp [missingOption, hform]
      simp only [hform, hq, Bool.false_or]
      exact ih rows score
    | some oid =>
      cases hopt : findOption options oid with
      | none =>
        have hq : missingOption options form q = true := by
          simp [missingOption, hform, hopt]
        simp [hform, hopt, hq]
      | some opt =>
        have hq : missingOption options form q = false := by
          simp [missingOption, hform, hopt]
        simp only [hform, hopt, hq, Bool.false_or]
        exact ih _ _

/-- What a successful `submit_test` returns, on any path: the score counts
correctly-answered questions; the total is the question count; one
`AttemptAnswer` row is appended per answered question for a student actor and
none for a preview actor; a preview leaves the state untouched. -/
theorem submit_test_ok_spec (questions : List QuestionRow)
    (options : List OptionRow) (form : Nat → Option Nat)
    (student_id : Option Nat) (sess : Option Nat) (st : AttemptState)
    (test_id now : Nat) (r : Nat × Nat × AttemptState)
    (h : submit_test questions options form student_id sess st test_id now = .ok r) :
    r.1 = questions.countP (answeredCorrectly options form) ∧
      r.2.1 = questions.length ∧
      r.2.2.attemptAnswers.length = st.attemptAnswers.length +
        (match student_id with
         | some _ => questions.countP (answeredQ form)
         | none => 0) ∧
      (student_id = none → r.2.2 = st) := by
  cases student_id with
  | none =>
    simp only [submit_test] at h
    cases hloop : answerLoop options form none questions [] 0 with
    | error e => rw [hloop] at h; exact absurd h (by simp)
    | ok p =>
      obtain ⟨rows, score⟩ := p
      rw [hloop] at h
      simp only [Except.ok.injEq] at h
      subst h
      have := answerLoop_ok_spec options form none questions [] 0 rows score hloop
      refine ⟨by simpa using this.1, rfl, by simp, fun _ => rfl⟩
  | some sid =>
    simp only [submit_test] at h
    cases hsess : sessionAttempt st.attempts sess with
    | some a0 =>
      rw [hsess] at h
      cases hloop : answerLoop options form (some a0.id) questions [] 0 with
      | error e => rw [hloop] at h; exact absurd h (by simp)
      | ok p =>
        obtain ⟨rows, score⟩ := p
        rw [hloop] at h
        simp only [Except.ok.injEq] at h
        subst h
        have := answerLoop_ok_spec options form (some a0.id) questions [] 0 rows score hloop
        refine ⟨by simpa using this.1, rfl, ?_, by simp⟩
        simp only [List.length_append]
        have h2 := this.2
        simp at h2
        simp [h2]
    | none =>
      rw [hsess] at h
      cases hloop : answerLoop options form (some st.nextAttemptId) questions [] 0 with
      | error e => rw [hloop] at h; exact absurd h (by simp)
      | ok p =>
        obtain ⟨rows, score⟩ := p
        rw [hloop] at h
        simp only [Except.ok.injEq] at h
        subst h
        have := answerLoop_ok_spec options form (some st.nextAttemptId) questions [] 0
          rows score hloop
        refine ⟨by simpa using this.1, rfl, ?_, by simp⟩
        simp only [List.length_append]
        have h2 := this.2
        simp at h2
        simp [h2]

/-- C1: a successful student quiz submission returns a score equal to the
count of questions whose submitted option is marked correct, never exceeding
the number of questions, and appends exactly one `AttemptAnswer` row per
question actually answered. -/
theorem C1_submit_score_and_rows (questions : List QuestionRow)
    (options : List OptionRow) (form : Nat → Option Nat) (sid : Nat)
    (sess : Option Nat) (st : AttemptState) (test_id now : Nat)
    (r : Nat × Nat × AttemptState)
    (h : submit_test questions options form (some sid) sess st test_id now = .ok r) :
    r.1 = questions.countP (answeredCorrectly options form) ∧
      r.1 ≤ questions.length ∧
      r.2.2.attemptAnswers.length =
        st.attemptAnswers.length + questions.countP (answeredQ form) := by
  have hs := submit_test_ok_spec questions options form (some sid) sess st test_id now r h
  refine ⟨hs.1, ?_, by simpa using hs.2.2.1⟩
  rw [hs.1]
  exact List.countP_le_length _

/-- C6: a quiz submission errors out precisely when some answered question's
submitted option id has no `Option` row; the missing option is never silently
skipped (an unanswered question, by contrast, is skipped without error). -/
theorem C6_missing_option_is_hard_error (questions : List QuestionRow)
    (options : List OptionRow) (form : Nat → Option Nat)
    (student_id : Option Nat) (sess : Option Nat) (st : AttemptState)
    (test_id now : Nat) :
    (submit_test questions options form student_id sess st test_id now = .error ()) ↔
      questions.any (missingOption options form) = true := by
  cases student_id with
  | none =>
    simp only [submit_test]
    cases hloop : answerLoop options form none questions [] 0 with
    | error e =>
      cases e
      have := (answerLoop_error_iff options form none questions [] 0).1 hloop
      simp [this]
    | ok p =>
      have hne : ¬ questions.any (missingOption options form) = true := by
        intro ha
        have := (answerLoop_error_iff options form none questions [] 0).2 ha
        rw [this] at hloop
        exact Except.noConfusion hloop
      simp [hne]
  | some sid =>
    simp only [submit_test]
    cases hsess : sessionAttempt st.attempts sess with
    | some a0 =>
      cases hloop : answerLoop options form (some a0.id) questions [] 0 with
      | error e =>
        cases e
        have := (answerLoop_error_iff options form (some a0.id) questions [] 0).1 hloop
        simp [this]
      | ok p =>
        have hne : ¬ questions.any (missingOption options form) = true := by
          intro ha
          have := (answerLoop_error_iff options form (some a0.id) questions [] 0).2 ha
          rw [this] at hloop
          exact Except.noConfusion hloop
        simp [hne]
    | none =>
      cases hloop : answerLoop options form (some st.nextAttemptId) questions [] 0 with
      | error e =>
        cases e
        have := (answerLoop_error_iff options form (some st.nextAttemptId) questions [] 0).1
          hloop
        simp [this]
      | ok p =>
        have hne : ¬ questions.any (missingOption options form) = true := by
          intro ha
          have := (answerLoop_error_iff options form (some st.nextAttemptId)
            questions [] 0).2 ha
          rw [this] at hloop
          exact Except.noConfusion hloop
        simp [hne]

/-- C7: a non-student (preview) submission writes nothing — the state is
returned untouched, so no `Attempt` or `AttemptAnswer` row appears — yet its
computed score and question total agree with any student submission over the
same questions, options and form data. -/
theorem C7_preview_scores_without_persistence (questions : List QuestionRow)
    (options : List OptionRow) (form : Nat → Option Nat) (sid : Nat)
    (sessP sessS : Option Nat) (stP stS : AttemptState)
    (tidP tidS nowP nowS : Nat) (rP rS : Nat × Nat × AttemptState)
    (hP : submit_test questions options form none sessP stP tidP nowP = .ok rP)
    (hS : submit_test questions options form (some sid) sessS stS tidS nowS = .ok rS) :
    rP.2.2 = stP ∧ rP.1 = rS.1 ∧ rP.2.1 = rS.2.1 := by
  have h1 := submit_test_ok_spec questions options form none sessP stP tidP nowP rP hP
  have h2 := submit_test_ok_spec questions options form (some sid) sessS stS tidS nowS rS hS
  exact ⟨h1.2.2.2 rfl, h1.1.trans h2.1.symm, h1.2.1.trans h2.2.1.symm⟩

/-- In the session-resolved case, `submit_test` rewrites the bound attempt row
in place (same id, fresh score and finish time), creates no attempt row, and
appends one answer row per answered question. -/
theorem submit_test_resolved_spec (questions : List QuestionRow)
    (options : List OptionRow) (form : Nat → Option Nat) (sid : Nat)
    (sess : Option Nat) (st : AttemptState) (test_id now : Nat)
    (a0 : AttemptRow) (r : Nat × Nat × AttemptState)
    (hsess : sessionAttempt st.attempts sess = some a0)
    (h : submit_test questions options form (some sid) sess st test_id now = .ok r) :
    r.2.2.attempts = st.attempts.map (fun a =>
        if a.id = a0.id then { a with score := r.1, finished_at := some now }
        else a) ∧
      r.2.2.nextAttemptId = st.nextAttemptId ∧
      r.2.2.attemptAnswers.length =
        st.attemptAnswers.length + questions.countP (answeredQ form) := by
  simp only [submit_test, hsess] at h
  cases hloop : answerLoop options form (some a0.id) questions [] 0 with
  | error e =>
    rw [hloop] at h
    exact absurd h (by simp)
  | ok p =>
    obtain ⟨rows, score⟩ := p
    rw [hloop] at h
    simp only [Except.ok.injEq] at h
    subst h
    have := answerLoop_ok_spec options form (some a0.id) questions [] 0 rows score hloop
    refine ⟨rfl, rfl, ?_⟩
    have h2 := this.2
    simp at h2
    simp [h2]

theorem sessionAttempt_map_id_preserving (attempts : List AttemptRow)
    (sess : Option Nat) (a0 : AttemptRow) (f : AttemptRow → AttemptRow)
    (hid : ∀ a, (f a).id = a.id)
    (hsess : sessionAttempt attempts sess = some a0) :
    sessionAttempt (attempts.map f) sess = some (f a0) := by
  cases sess with
  | none => exact absurd hsess (by simp [sessionAttempt])
  | some aid =>
    simp only [sessionAttempt] at hsess ⊢
    by_cases h0 : aid = 0
    · rw [if_pos h0] at hsess
      exact absurd hsess (by simp)
    · rw [if_neg h0] at hsess ⊢
      unfold findAttempt at *
      induction attempts with
      | nil => exact absurd hsess (by simp)
      | cons a rest ih =>
        by_cases ha : a.id = aid
        · rw [List.find?_cons_of_pos _ (by simp [ha])] at hsess
          rw [List.map_cons, List.find?_cons_of_pos _ (by simp [hid a, ha])]
          simp only [Option.some.injEq] at hsess
          rw [hsess]
        · rw [List.find?_cons_of_neg _ (by simp [ha])] at hsess
          rw [List.map_cons, List.find?_cons_of_neg _ (by simp [hid a, ha])]
          exact ih hsess

/-- A session-resolved attempt row belongs to the attempts table. -/
theorem sessionAttempt_mem {attempts : List AttemptRow} {sess : Option Nat}
    {a0 : AttemptRow} (hsess : sessionAttempt attempts sess = some a0) :
    a0 ∈ attempts := by
  cases sess with
  | none => exact absurd hsess (by simp [sessionAttempt])
  | some aid =>
    simp only [sessionAttempt] at hsess
    by_cases h0 : aid = 0
    · rw [if_pos h0] at hsess
      exact absurd hsess (by simp)
    · rw [if_neg h0] at hsess
      exact List.mem_of_find?_eq_some hsess

/-- C10: submitting the same quiz twice in one session (with the session-bound
attempt id resolving) creates no new `Attempt` row on either submission,
overwrites that attempt's score and `finished_at` with the freshly computed
values, and appends a further batch of `AttemptAnswer` rows — after two
submissions, two rows per answered question in total. -/
theorem C10_resubmit_overwrites_and_appends (questions : List QuestionRow)
    (options : List OptionRow) (form : Nat → Option Nat) (sid : Nat)
    (sess : Option Nat) (st : AttemptState) (test_id now1 now2 : Nat)
    (a0 : AttemptRow) (r1 r2 : Nat × Nat × AttemptState)
    (hsess : sessionAttempt st.attempts sess = some a0)
    (h1 : submit_test questions options form (some sid) sess st test_id now1 = .ok r1)
    (h2 : submit_test questions options form (some sid) sess r1.2.2 test_id now2 = .ok r2) :
    r1.2.2.attempts.length = st.attempts.length ∧
      r2.2.2.attempts.length = st.attempts.length ∧
      r2.1 = r1.1 ∧
      (∃ a ∈ r2.2.2.attempts, a.id = a0.id) ∧
      (∀ a ∈ r2.2.2.attempts, a.id = a0.id →
        a.score = r2.1 ∧ a.finished_at = some now2) ∧
      r2.2.2.attemptAnswers.length =
        st.attemptAnswers.length + 2 * questions.countP (answeredQ form) := by
  have hr1 := submit_test_resolved_spec questions options form sid sess st test_id now1
    a0 r1 hsess h1
  obtain ⟨ha1, _, hw1⟩ := hr1
  have hidp : ∀ a : AttemptRow,
      ((fun a => if a.id = a0.id then
        { a with score := r1.1, finished_at := some now1 } else a) a).id = a.id := by
    intro a
    by_cases h : a.id = a0.id <;> simp [h]
  have hsess1 : sessionAttempt r1.2.2.attempts sess =
      some (if a0.id = a0.id then
        { a0 with score := r1.1, finished_at := some now1 } else a0) := by
    rw [ha1]
    exact sessionAttempt_map_id_preserving st.attempts sess a0 _ hidp hsess
  rw [if_pos rfl] at hsess1
  have hr2 := submit_test_resolved_spec questions options form sid sess r1.2.2 test_id now2
    _ r2 hsess1 h2
  obtain ⟨ha2, _, hw2⟩ := hr2
  have hscore1 := (submit_test_ok_spec questions options form (some sid) sess st
    test_id now1 r1 h1).1
  have hscore2 := (submit_test_ok_spec questions options form (some sid) sess r1.2.2
    test_id now2 r2 h2).1
  refine ⟨?_, ?_, ?_, ?_, ?_, ?_⟩
  · rw [ha1, List.length_map]
  · rw [ha2, ha1, List.length_map, List.length_map]
  · rw [hscore1, hscore2]
  · -- the updated image of `a0` is present with the same id
    have hmem0 : a0 ∈ st.attempts := sessionAttempt_mem hsess
    have hmem1 : ({ a0 with score := r1.1, finished_at := some now1 } : AttemptRow) ∈
        r1.2.2.attempts := by
      rw [ha1]
      have := List.mem_map_of_mem (fun a : AttemptRow =>
        if a.id = a0.id then { a with score := r1.1, finished_at := some now1 } else a) hmem0
      simpa using this
    refine ⟨{ { a0 with score := r1.1, finished_at := some now1 } with
        score := r2.1, finished_at := some now2 }, ?_, rfl⟩
    rw [ha2]
    have := List.mem_map_of_mem (fun a : AttemptRow =>
      if a.id = ({ a0 with score := r1.1, finished_at := some now1 } : AttemptRow).id then
        { a with score := r2.1, finished_at := some now2 } else a) hmem1
    simpa using this
  · intro a hmem hid
    rw [ha2] at hmem
    rcases List.mem_map.1 hmem with ⟨b, hb, hab⟩
    by_cases hbid : b.id = ({ a0 with score := r1.1, finished_at := some now1 } : AttemptRow).id
    · rw [if_pos hbid] at hab
      rw [← hab]
      exact ⟨rfl, rfl⟩
    · rw [if_neg hbid] at hab
      subst hab
      simp only at hbid
      exact absurd hid hbid
  · rw [hw2, hw1]
    ring

/-- C5: when the session-bound attempt id resolves to a stored attempt, a
start (and a second start right after it) reuses that attempt: both return
its id, the state is unchanged (no duplicate `Attempt` row), and the session
binding survives. -/
theorem C5_start_idempotent (duration_minutes : Option Nat) (sid : Nat)
    (sess : Option Nat) (st : AttemptState) (test_id now1 now2 : Nat)
    (a0 : AttemptRow)
    (hsess : sessionAttempt st.attempts sess = some a0) :
    (start_test duration_minutes sid sess st test_id now1).attemptId = a0.id ∧
      (start_test duration_minutes sid sess st test_id now1).state = st ∧
      (start_test duration_minutes sid sess st test_id now1).sess = sess ∧
      (start_test duration_minutes sid
        (start_test duration_minutes sid sess st test_id now1).sess
        (start_test duration_minutes sid sess st test_id now1).state
        test_id now2).attemptId = a0.id ∧
      (start_test duration_minutes sid
        (start_test duration_minutes sid sess st test_id now1).sess
        (start_test duration_minutes sid sess st test_id now1).state
        test_id now2).state = st := by
  simp only [start_test, hsess]
  exact ⟨trivial, trivial, trivial, trivial, trivial⟩

/-! Concrete inputs for the witnesses: a 3-question quiz answered
2-correct/1-wrong (the spec's worked example), and a 2-question quiz with a
pre-existing session-bound attempt. -/

def wQuestions : List QuestionRow := [⟨1⟩, ⟨2⟩, ⟨3⟩]

def wOptions : List OptionRow :=
  [⟨11, 1, true⟩, ⟨12, 1, false⟩, ⟨21, 2, true⟩, ⟨22, 2, false⟩, ⟨31, 3, true⟩]

def wForm : Nat → Option Nat := fun qid =>
  if qid = 1 then some 11 else if qid = 2 then some 22
  else if qid = 3 then some 31 else none

def wState1 : AttemptState :=
  ⟨[⟨1, 9, 5, 100, some 100, 2⟩], [⟨1, 1, 11⟩, ⟨1, 2, 22⟩, ⟨1, 3, 31⟩], 2⟩

def wQuestions2 : List QuestionRow := [⟨1⟩, ⟨2⟩]

def wOptions2 : List OptionRow := [⟨11, 1, true⟩, ⟨12, 1, false⟩, ⟨21, 2, true⟩]

def wForm2 : Nat → Option Nat := fun qid =>
  if qid = 1 then some 11 else if qid = 2 then some 21 else none

def wAttempt0 : AttemptRow := ⟨1, 9, 5, 50, none, 0⟩

def wSt0 : AttemptState := ⟨[wAttempt0], [], 2⟩

def wSt1 : AttemptState :=
  ⟨[⟨1, 9, 5, 50, some 100, 2⟩], [⟨1, 1, 11⟩, ⟨1, 2, 21⟩], 2⟩

def wSt2 : AttemptState :=
  ⟨[⟨1, 9, 5, 50, some 200, 2⟩],
   [⟨1, 1, 11⟩, ⟨1, 2, 21⟩, ⟨1, 1, 11⟩, ⟨1, 2, 21⟩], 2⟩

/-- Witness for C1: 3 questions, 2 answered correctly and 1 incorrectly —
score 2 of 3, and 3 `AttemptAnswer` rows recorded. -/
theorem C1_submit_score_and_rows_witness :
    (submit_test wQuestions wOptions wForm (some 5) none ⟨[], [], 1⟩ 9 100 =
      .ok (2, 3, wState1)) ∧
      ((2 : Nat) = wQuestions.countP (answeredCorrectly wOptions wForm) ∧
        (2 : Nat) ≤ wQuestions.length ∧
        wState1.attemptAnswers.length =
          ([] : List AttemptAnswerRow).length + wQuestions.countP (answeredQ wForm)) :=
  ⟨rfl, C1_submit_score_and_rows wQuestions wOptions wForm 5 none ⟨[], [], 1⟩ 9 100
    (2, 3, wState1) rfl⟩

/-- Witness for C7: the preview submission returns the same score/total as the
student submission and leaves the state untouched. -/
theorem C7_preview_scores_without_persistence_witness :
    (submit_test wQuestions wOptions wForm none none ⟨[], [], 1⟩ 9 100 =
      .ok (2, 3, ⟨[], [], 1⟩)) ∧
      (submit_test wQuestions wOptions wForm (some 5) none ⟨[], [], 1⟩ 9 100 =
        .ok (2, 3, wState1)) ∧
      ((⟨[], [], 1⟩ : AttemptState) = ⟨[], [], 1⟩ ∧ (2 : Nat) = 2 ∧ (3 : Nat) = 3) :=
  ⟨rfl, rfl, C7_preview_scores_without_persistence wQuestions wOptions wForm 5
    none none ⟨[], [], 1⟩ ⟨[], [], 1⟩ 9 9 100 100 (2, 3, ⟨[], [], 1⟩) (2, 3, wState1)
    rfl rfl⟩

/-- Witness for C10: submitting the 2-question quiz twice in the same session
keeps the single attempt row, overwrites its score/finish time, and leaves
2 × 2 `AttemptAnswer` rows. -/
theorem C10_resubmit_overwrites_and_appends_witness :
    (sessionAttempt wSt0.attempts (some 1) = some wAttempt0) ∧
      (submit_test wQuestions2 wOptions2 wForm2 (some 5) (some 1) wSt0 9 100 =
        .ok (2, 2, wSt1)) ∧
      (submit_test wQuestions2 wOptions2 wForm2 (some 5) (some 1) wSt1 9 200 =
        .ok (2, 2, wSt2)) ∧
      (wSt1.attempts.length = wSt0.attempts.length ∧
        wSt2.attempts.length = wSt0.attempts.length ∧
        (2 : Nat) = 2 ∧
        (∃ a ∈ wSt2.attempts, a.id = wAttempt0.id) ∧
        (∀ a ∈ wSt2.attempts, a.id = wAttempt0.id →
          a.score = 2 ∧ a.finished_at = some 200) ∧
        wSt2.attemptAnswers.length =
          wSt0.attemptAnswers.length + 2 * wQuestions2.countP (answeredQ wForm2)) :=
  ⟨rfl, rfl, rfl, C10_resubmit_overwrites_and_appends wQuestions2 wOptions2 wForm2 5
    (some 1) wSt0 9 100 200 wAttempt0 (2, 2, wSt1) (2, 2, wSt2) rfl rfl rfl⟩

/-- Witness for C5: with the session bound to attempt 1, both starts return
attempt id 1 and leave the state unchanged. -/
theorem C5_start_idempotent_witness :
    (sessionAttempt wSt0.attempts (some 1) = some wAttempt0) ∧
      ((start_test (some 30) 5 (some 1) wSt0 9 60).attemptId = wAttempt0.id ∧
        (start_test (some 30) 5 (some 1) wSt0 9 60).state = wSt0 ∧
        (start_test (some 30) 5 (some 1) wSt0 9 60).sess = some 1 ∧
        (start_test (some 30) 5
          (start_test (some 30) 5 (some 1) wSt0 9 60).sess
          (start_test (some 30) 5 (some 1) wSt0 9 60).state 9 70).attemptId =
            wAttempt0.id ∧
        (start_test (some 30) 5
          (start_test (some 30) 5 (some 1) wSt0 9 60).sess
          (start_test (some 30) 5 (some 1) wSt0 9 60).state 9 70).state = wSt0) :=
  ⟨rfl, C5_start_idempotent (some 30) 5 (some 1) wSt0 9 60 70 wAttempt0 rfl⟩

/-! ### Homework submission (`homework_submit`) and grading (`grade_homework`) -/

def ALLOWED_EXTENSIONS : List String :=
  ["pdf", "doc", "docx", "ppt", "pptx", "zip", "rar", "7z", "mp4", "txt"]

def ALLOWED_IMAGE_EXTENSIONS : List String :=
  ["png", "jpg", "jpeg", "gif", "webp"]

/-- Python `str.strip()`: drop leading and trailing whitespace.  (Stated on
the character list so the kernel can evaluate it; `String.trim` itself is
defined by well-founded recursion on byte positions.) -/
def pyStrip (s : String) : String :=
  ⟨((s.data.dropWhile Char.isWhitespace).reverse.dropWhile Char.isWhitespace).reverse⟩

/-- Python `str.lower()`, character by character. -/
def toLowerStr (s : String) : String :=
  ⟨s.data.map Char.toLower⟩

/-- `filename.rsplit('.', 1)[1]`: the part after the last dot. -/
def lastExtension (filename : String) : String :=
  ⟨(filename.data.reverse.takeWhile (fun c => c != '.')).reverse⟩

/-- `allowed_file` (`app.py`): a dot in the name and a whitelisted
(lower-cased) extension. -/
def allowed_file (filename : String) : Bool :=
  filename.data.contains '.' &&
    decide (toLowerStr (lastExtension filename) ∈ ALLOWED_EXTENSIONS)

/-- `allowed_image` (`app.py`). -/
def allowed_image (filename : String) : Bool :=
  filename.data.contains '.' &&
    decide (toLowerStr (lastExtension filename) ∈ ALLOWED_IMAGE_EXTENSIONS)

/-- `allowed_homework_file` (`app.py`). -/
def allowed_homework_file (filename : String) : Bool :=
  allowed_file filename || allowed_image filename

/-- Row of the `homework_submission` table. -/
structure HomeworkSubmissionRow where
  id : Nat
  test_id : Nat
  student_id : Nat
  text : Option String
  file_path : Option String
  submitted_at : Nat
  score : Option Int
  deriving Repr, DecidableEq

/-- Homework table plus its autoincrement counter. -/
structure HomeworkState where
  submissions : List HomeworkSubmissionRow
  nextSubmissionId : Nat
  deriving Repr, DecidableEq

/-- The four observable outcomes of a homework submission POST (each mapped to
a distinct flash message in the handler). -/
inductive HomeworkOutcome where
  | submitted
  | rejectedLate
  | rejectedEmpty
  | rejectedFileType
  deriving Repr, DecidableEq

/-- `is_late = bool(t.due_at and now > t.due_at)`. -/
def is_late (due_at : Option Nat) (now : Nat) : Bool :=
  match due_at with
  | some d => decide (d < now)
  | none => false

/-- `file and file.filename` truthiness: a file part with a nonempty name. -/
def hasFile (file : Option String) : Bool :=
  decide (file.getD "" ≠ "")

/-- POST branch of `homework_submit` (`app.py`) for an authorized student:
reject when late, reject when neither text nor file is present, reject a file
with a disallowed extension, otherwise append a fresh `HomeworkSubmission`
row.  `rawText` is the raw form text (the handler strips it); `now` models
`datetime.utcnow()` (used for both the lateness check and `submitted_at`);
the stored filename is modelled as the uploaded name itself (`save_upload`'s
collision renaming is filesystem state, not modelled). -/
def homework_submit (due_at : Option Nat) (rawText : String) (file : Option String)
    (test_id student_id now : Nat) (st : HomeworkState) :
    HomeworkOutcome × HomeworkState :=
  if is_late due_at now then (.rejectedLate, st)
  else
    let text := pyStrip rawText
    if text = "" && !(hasFile file) then (.rejectedEmpty, st)
    else if hasFile file && !(allowed_homework_file (file.getD "")) then
      (.rejectedFileType, st)
    else
      let file_name : Option String := if hasFile file then some (file.getD "") else none
      (.submitted,
        ⟨st.submissions ++
          [⟨st.nextSubmissionId, test_id, student_id,
            (if text = "" then none else some text), file_name, now, none⟩],
          st.nextSubmissionId + 1⟩)

/-- C8 counterexample: a submission 50 time units before the deadline that
carries a file (`report.exe`, a disallowed extension) is rejected with no row
written — contradicting "a submission before `due_at` that carries at least
text or a file succeeds". -/
theorem C8_counterexample_disallowed_file :
    (homework_submit (some 100) "" (some "report.exe") 9 5 50 ⟨[], 1⟩).1 ≠
        HomeworkOutcome.submitted ∧
      (homework_submit (some 100) "" (some "report.exe") 9 5 50 ⟨[], 1⟩).2 = ⟨[], 1⟩ ∧
      is_late (some 100) 50 = false ∧
      hasFile (some "report.exe") = true := by
  refine ⟨?_, rfl, rfl, rfl⟩
  decide

/-- C8 (amended): a late submission is rejected with no row written; a
submission that is not late, carries at least (stripped) text or a file, and
whose file — if any — has an allowed extension, succeeds and appends exactly
one new row, preserving every prior submission. -/
theorem C8_homework_deadline_and_append (due_at : Option Nat) (rawText : String)
    (file : Option String) (test_id student_id now : Nat) (st : HomeworkState) :
    (is_late due_at now = true →
      homework_submit due_at rawText file test_id student_id now st =
        (.rejectedLate, st)) ∧
      (is_late due_at now = false →
        (pyStrip rawText ≠ "" ∨ hasFile file = true) →
        (hasFile file = true → allowed_homework_file (file.getD "") = true) →
        homework_submit due_at rawText file test_id student_id now st =
          (.submitted,
            ⟨st.submissions ++
              [⟨st.nextSubmissionId, test_id, student_id,
                (if pyStrip rawText = "" then none else some (pyStrip rawText)),
                (if hasFile file then some (file.getD "") else none), now, none⟩],
              st.nextSubmissionId + 1⟩)) := by
  constructor
  · intro hl
    simp [homework_submit, hl]
  · intro hl hcontent hfile
    rw [homework_submit, if_neg (by rw [hl]; exact Bool.false_ne_true)]
    have hc2 : ((pyStrip rawText = "") && !(hasFile file)) = false := by
      rcases hcontent with ht | hf
    -- either text is present or the file flag is set
      · cases hv : hasFile file <;> simp [ht, hv]
      · simp [hf]
    rw [if_neg (by rw [hc2]; exact Bool.false_ne_true)]
    have hc3 : (hasFile file && !(allowed_homework_file (file.getD ""))) = false := by
      cases hv : hasFile file
      · simp
      · simp [hfile hv]
    rw [if_neg (by rw [hc3]; exact Bool.false_ne_true)]

/-- Witness for C8: a pre-deadline text-only submission (text is stripped
before storage) is accepted and appended with no score and no file. -/
theorem C8_homework_deadline_and_append_witness :
    homework_submit (some 100) " essay " none 9 5 50 ⟨[], 1⟩ =
      (.submitted, ⟨[⟨1, 9, 5, some "essay", none, 50, none⟩], 2⟩) :=
  (C8_homework_deadline_and_append (some 100) " essay " none 9 5 50 ⟨[], 1⟩).2
    rfl (Or.inl (by decide)) (fun h => absurd h (by decide))

/-- Result of the three-way branch on the grade form input. -/
inductive GradeOutcome where
  | saved
  | invalidScore
  deriving Repr, DecidableEq

/-- The stripped `score` form field as the handler sees it: empty, a valid
Python `int(...)` literal, or a string `int(...)` rejects with `ValueError`. -/
inductive GradeInput where
  | empty
  | int (n : Int)
  | malformed
  deriving Repr, DecidableEq

/-- `grade_homework` (`app.py`): look up the submission by its own id
(`get_or_404`), clear the score on empty input, set it on a valid integer,
or flash an error and change nothing on a malformed one. -/
def grade_homework (subs : List HomeworkSubmissionRow) (submission_id : Nat)
    (input : GradeInput) :
    Except Unit (List HomeworkSubmissionRow × GradeOutcome) :=
  match subs.find? (fun s => s.id = submission_id) with
  | none => .error ()
  | some _ =>
    match input with
    | .empty =>
      .ok (subs.map (fun s =>
        if s.id = submission_id then { s with score := none } else s), .saved)
    | .int n =>
      .ok (subs.map (fun s =>
        if s.id = submission_id then { s with score := some n } else s), .saved)
    | .malformed => .ok (subs, .invalidScore)

/-- C9: with the submission present, grading with empty input clears exactly
that submission's score to none, a valid integer sets it, and malformed input
reports an error and leaves every row unchanged. -/
theorem C9_grade_homework_spec (subs : List HomeworkSubmissionRow) (sid : Nat)
    (r0 : HomeworkSubmissionRow)
    (hfind : subs.find? (fun s => s.id = sid) = some r0) :
    (grade_homework subs sid .empty =
        .ok (subs.map (fun s =>
          if s.id = sid then { s with score := none } else s), .saved)) ∧
      (∀ n : Int, grade_homework subs sid (.int n) =
        .ok (subs.map (fun s =>
          if s.id = sid then { s with score := some n } else s), .saved)) ∧
      (grade_homework subs sid .malformed = .ok (subs, .invalidScore)) := by
  refine ⟨?_, fun n => ?_, ?_⟩ <;> simp only [grade_homework, hfind]

/-- Witness for C9: a one-row table whose score 4 is cleared by empty input,
set to 7 by integer input, and untouched by malformed input. -/
theorem C9_grade_homework_spec_witness :
    (grade_homework [⟨1, 9, 5, some "t", none, 50, some 4⟩] 1 .empty =
        .ok ([⟨1, 9, 5, some "t", none, 50, none⟩], .saved)) ∧
      (∀ n : Int, grade_homework [⟨1, 9, 5, some "t", none, 50, some 4⟩] 1 (.int n) =
        .ok ([⟨1, 9, 5, some "t", none, 50, some n⟩], .saved)) ∧
      (grade_homework [⟨1, 9, 5, some "t", none, 50, some 4⟩] 1 .malformed =
        .ok ([⟨1, 9, 5, some "t", none, 50, some 4⟩], .invalidScore)) :=
  C9_grade_homework_spec [⟨1, 9, 5, some "t", none, 50, some 4⟩] 1
    ⟨1, 9, 5, some "t", none, 50, some 4⟩ rfl

/-! ### Seed reconciler (`ensure_ai_seed`)

Python dicts built by comprehension (`{x.key: x for x in l}`) keep the first
occurrence's position and the last occurrence's value; `buildDict` models
that.  Primary keys are assigned in insertion order by the store, modelled by
the explicit counters.  A question's `.answers` relationship is modelled as
the current rows with that `question_id`. -/

/-- Row of the `ai_question` table. -/
structure AIQuestionRow where
  id : Nat
  text : String
  deriving Repr, DecidableEq

/-- One desired answer of the seed (`{"text": ..., "scores": {...}}`). -/
structure SeedAnswer where
  text : String
  scores : List (String × Int)
  deriving Repr, DecidableEq

/-- One desired question of the seed. -/
structure SeedQuestion where
  text : String
  answers : List SeedAnswer
  deriving Repr, DecidableEq

/-- The tables `ensure_ai_seed` touches, with their id counters. -/
structure SeedState where
  questions : List AIQuestionRow
  answers : List AIAnswerRow
  nextQId : Nat
  nextAId : Nat
  deriving Repr, DecidableEq

/-- `d[k] = v` on a Python dict: overwrite in place or append. -/
def dictPut {α : Type} (k : String) (v : α) : List (String × α) → List (String × α)
  | [] => [(k, v)]
  | (k2, v2) :: rest => if k2 = k then (k, v) :: rest else (k2, v2) :: dictPut k v rest

/-- `{key(x): x for x in l}`. -/
def buildDict {α : Type} (key : α → String) (l : List α) : List (String × α) :=
  l.foldl (fun d a => dictPut (key a) a d) []

/-- Dict lookup (`d.get(k)` / `k in d`). -/
def dictGet {α : Type} (d : List (String × α)) (k : String) : Option α :=
  (d.find? (fun p => p.1 = k)).map (fun p => p.2)

/-- `existing.get(text)`: the dict keyed by question text maps each text to
the last row carrying it. -/
def lastWithText (qs : List AIQuestionRow) (t : String) : Option AIQuestionRow :=
  qs.reverse.find? (fun q => q.text = t)

/-- One iteration of the update/insert loop of `ensure_ai_seed`: overwrite the
scores of the dict-resolved existing answer, or insert a fresh row. -/
def seedAnswersStep (qid : Nat) (exD : List (String × AIAnswerRow))
    (st : SeedState) (entry : String × SeedAnswer) : SeedState :=
  match dictGet exD entry.1 with
  | some arow =>
    { st with answers := st.answers.map (fun a =>
        if a.id = arow.id then { a with scores := entry.2.scores } else a) }
  | none =>
    { st with
      answers := st.answers ++ [⟨st.nextAId, qid, entry.1, entry.2.scores⟩],
      nextAId := st.nextAId + 1 }

/-- The current answer rows of one question (the `q_obj.answers`
relationship). -/
def rowsFor (st : SeedState) (qid : Nat) : List AIAnswerRow :=
  st.answers.filter (fun a => a.question_id = qid)

/-- The per-question body of `ensure_ai_seed`: build the desired/existing
answer dicts, delete existing answers whose text is not desired, then
overwrite or insert each desired answer. -/
def processAnswers (st : SeedState) (qid : Nat) (answers : List SeedAnswer) :
    SeedState :=
  let desired := buildDict (fun a : SeedAnswer => a.text) answers
  let exD := buildDict (fun a : AIAnswerRow => a.text) (rowsFor st qid)
  let delIds := (exD.filter (fun p => (dictGet desired p.1).isNone)).map
    (fun p => p.2.id)
  let st1 := { st with answers := st.answers.filter (fun a => !(delIds.contains a.id)) }
  desired.foldl (seedAnswersStep qid exD) st1

/-- Processing one seed question: reuse the text-matched question from the
dict snapshot taken at entry (`existing`), or create a fresh one. -/
def processQuestion (existing0 : List AIQuestionRow) (st : SeedState)
    (q : SeedQuestion) : SeedState :=
  match lastWithText existing0 q.text with
  | some qrow => processAnswers st qrow.id q.answers
  | none =>
    let qid := st.nextQId
    let st1 := { st with
      questions := st.questions ++ [⟨qid, q.text⟩], nextQId := qid + 1 }
    processAnswers st1 qid q.answers

/-- `ensure_ai_seed` (`app.py`): reconcile the seed into the store.  The
`existing` question dict is built once from the state at entry. -/
def ensure_ai_seed (seed : List SeedQuestion) (st : SeedState) : SeedState :=
  seed.foldl (processQuestion st.questions) st

/-- Well-formedness of the store, as the application maintains it: distinct
primary keys below their counters, answers referencing allocated question
ids, and no two answers of one question sharing a text. -/
structure SeedWF (st : SeedState) : Prop where
  qNodup : (st.questions.map (fun q => q.id)).Nodup
  aNodup : (st.answers.map (fun a => a.id)).Nodup
  qBound : ∀ q ∈ st.questions, q.id < st.nextQId
  aBound : ∀ a ∈ st.answers, a.id < st.nextAId
  aqBound : ∀ a ∈ st.answers, a.question_id < st.nextQId
  textNodup : ∀ qid : Nat, ((rowsFor st qid).map (fun a => a.text)).Nodup

/-! Dict lemmas. -/

theorem dictPut_absent {α : Type} (k : String) (v : α) (d : List (String × α))
    (h : k ∉ d.map Prod.fst) : dictPut k v d = d ++ [(k, v)] := by
  induction d with
  | nil => rfl
  | cons p rest ih =>
    obtain ⟨k2, v2⟩ := p
    simp only [List.map_cons, List.mem_cons] at h
    push_neg at h
    simp only [dictPut, if_neg (fun hh : k2 = k => h.1 hh.symm), List.cons_append,
      List.cons.injEq, true_and]
    exact ih h.2

theorem buildDict_nodup {α : Type} (key : α → String) (l : List α)
    (h : (l.map key).Nodup) :
    buildDict key l = l.map (fun a => (key a, a)) := by
  suffices hgen : ∀ acc : List (String × α),
      (∀ a ∈ l, key a ∉ acc.map Prod.fst) →
      l.foldl (fun d a => dictPut (key a) a d) acc = acc ++ l.map (fun a => (key a, a)) by
    simpa using hgen [] (by simp)
  induction l with
  | nil => intro acc _; simp
  | cons x xs ih =>
    intro acc hacc
    simp only [List.map_cons, List.nodup_cons] at h
    simp only [List.foldl_cons]
    rw [dictPut_absent _ _ _ (hacc x (List.mem_cons_self x xs)),
      ih h.2 _ ?_]
    · simp
    · intro a ha
      simp only [List.map_append, List.mem_append]
      push_neg
      refine ⟨hacc a (List.mem_cons_of_mem x ha), ?_⟩
      simp only [List.map_cons, List.map_nil, List.mem_singleton]
      intro hk
      exact h.1 (hk ▸ List.mem_map_of_mem key ha)

theorem dictGet_map_pair {α : Type} (key : α → String) (l : List α) (t : String) :
    dictGet (l.map (fun a => (key a, a))) t = l.find? (fun a => key a = t) := by
  induction l with
  | nil => rfl
  | cons x xs ih =>
    simp only [List.map_cons, dictGet, List.find?_cons]
    by_cases h : key x = t
    · simp [h]
    · have hd : (decide (key x = t)) = false := by simp [h]
      rw [hd]
      exact ih

theorem dictGet_buildDict_eq_find {α : Type} (key : α → String) (l : List α)
    (t : String) (h : (l.map key).Nodup) :
    dictGet (buildDict key l) t = l.find? (fun a => key a = t) := by
  rw [buildDict_nodup key l h, dictGet_map_pair]

theorem rowsFor_mem {st : SeedState} {qid : Nat} {a : AIAnswerRow} :
    a ∈ rowsFor st qid ↔ a ∈ st.answers ∧ a.question_id = qid := by
  simp [rowsFor]

theorem bool_eq_of_iff {a b : Bool} (h : a = true ↔ b = true) : a = b := by
  cases a <;> cases b <;> simp_all

/-- Membership in the delete set: exactly the rows of this question whose
text is not among the desired texts (under the no-duplicate hypotheses). -/
theorem mem_delIds_iff (st : SeedState) (qid : Nat) (ds : List SeedAnswer)
    (haN : (st.answers.map (fun a => a.id)).Nodup)
    (htN : ((rowsFor st qid).map (fun a => a.text)).Nodup)
    (hdsN : (ds.map (fun d => d.text)).Nodup)
    (a : AIAnswerRow) (ha : a ∈ st.answers) :
    a.id ∈ (((buildDict (fun x : AIAnswerRow => x.text) (rowsFor st qid)).filter
        (fun p => (dictGet (buildDict (fun d : SeedAnswer => d.text) ds) p.1).isNone)).map
      (fun p => p.2.id)) ↔
      (a.question_id = qid ∧ ds.find? (fun d => d.text = a.text) = none) := by
  rw [buildDict_nodup _ _ htN]
  constructor
  · intro h
    rcases List.mem_map.1 h with ⟨p, hp, hpid⟩
    rcases List.mem_filter.1 hp with ⟨hpmem, hpnone⟩
    rcases List.mem_map.1 hpmem with ⟨b, hb, hpb⟩
    have hbmem := rowsFor_mem.1 hb
    have hba : b = a := by
      refine List.inj_on_of_nodup_map haN hbmem.1 ha ?_
      rw [← hpb] at hpid
      exact hpid
    rw [← hpb] at hpnone
    simp only [dictGet_buildDict_eq_find _ _ _ hdsN, Option.isNone_iff_eq_none] at hpnone
    subst hba
    exact ⟨hbmem.2, hpnone⟩
  · rintro ⟨hq, hnone⟩
    refine List.mem_map.2 ⟨(a.text, a), List.mem_filter.2 ⟨?_, ?_⟩, rfl⟩
    · exact List.mem_map.2 ⟨a, rowsFor_mem.2 ⟨ha, hq⟩, rfl⟩
    · simp only [dictGet_buildDict_eq_find _ _ _ hdsN, Option.isNone_iff_eq_none]
      simpa using hnone

/-- The deletion phase keeps exactly the rows that either belong to another
question or carry a desired text. -/
theorem delete_phase_eq (st : SeedState) (qid : Nat) (ds : List SeedAnswer)
    (haN : (st.answers.map (fun a => a.id)).Nodup)
    (htN : ((rowsFor st qid).map (fun a => a.text)).Nodup)
    (hdsN : (ds.map (fun d => d.text)).Nodup) :
    st.answers.filter (fun a =>
      !((((buildDict (fun x : AIAnswerRow => x.text) (rowsFor st qid)).filter
        (fun p => (dictGet (buildDict (fun d : SeedAnswer => d.text) ds) p.1).isNone)).map
          (fun p => p.2.id)).contains a.id)) =
      st.answers.filter (fun a =>
        !(decide (a.question_id = qid) &&
          (ds.find? (fun d => d.text = a.text)).isNone)) := by
  apply List.filter_congr
  intro a ha
  apply congrArg Bool.not
  apply bool_eq_of_iff
  rw [List.elem_iff]
  rw [mem_delIds_iff st qid ds haN htN hdsN a ha]
  constructor
  · rintro ⟨hq, hnone⟩
    simp [hq, hnone]
  · intro h
    simp only [Bool.and_eq_true, decide_eq_true_eq, Option.isNone_iff_eq_none] at h
    exact h

theorem map_filter_comm (f : AIAnswerRow → AIAnswerRow) (p : AIAnswerRow → Bool)
    (hp : ∀ a, p (f a) = p a) (l : List AIAnswerRow) :
    (l.map f).filter p = (l.filter p).map f := by
  induction l with
  | nil => rfl
  | cons a rest ih =>
    simp only [List.map_cons, List.filter_cons, hp a]
    cases p a <;> simp [ih]

theorem map_eq_self_of (l : List AIAnswerRow) (f : AIAnswerRow → AIAnswerRow)
    (h : ∀ a ∈ l, f a = a) : l.map f = l := by
  induction l with
  | nil => rfl
  | cons a rest ih =>
    simp only [List.map_cons, h a (List.mem_cons_self a rest)]
    rw [ih (fun b hb => h b (List.mem_cons_of_mem a hb))]

/-- Behaviour of the update/insert fold of `processAnswers`, by induction over
the desired entries.  `exD` is the (snapshot) existing-answers dict:
hypotheses say each resolved entry points at a live row of this question
(H3), unresolved entries have no live row with their text (H5), the desired
texts are distinct (H4), and the table is well-formed (H1, H2, H6).  The
conclusions: only answer rows change (1, 2), ids stay unique and bounded
(3–5), every row of this question either realizes a desired entry or is an
untouched original with an undesired text (6), every desired entry is
realized (7), other questions' rows are untouched (8), this question keeps
distinct texts (9), and text presence is monotone (10). -/
theorem seedAnswersFold_spec (qid : Nat) (exD : List (String × AIAnswerRow)) :
    ∀ (ds : List SeedAnswer) (s s2 : SeedState),
      s2 = ds.foldl (fun s d => seedAnswersStep qid exD s (d.text, d)) s →
      (s.answers.map (fun a => a.id)).Nodup →
      (∀ a ∈ s.answers, a.id < s.nextAId) →
      (∀ d ∈ ds, ∀ a0, dictGet exD d.text = some a0 →
        a0 ∈ s.answers ∧ a0.question_id = qid ∧ a0.text = d.text) →
      (ds.map (fun d => d.text)).Nodup →
      (∀ d ∈ ds, dictGet exD d.text = none →
        ∀ a ∈ s.answers, a.question_id = qid → a.text ≠ d.text) →
      (((rowsFor s qid).map (fun a => a.text)).Nodup) →
      (s2.questions = s.questions ∧
        s2.nextQId = s.nextQId ∧
        s.nextAId ≤ s2.nextAId ∧
        (s2.answers.map (fun a => a.id)).Nodup ∧
        (∀ a ∈ s2.answers, a.id < s2.nextAId) ∧
        (∀ a ∈ s2.answers, a.question_id = qid →
          (∃ d ∈ ds, a.text = d.text ∧ a.scores = d.scores) ∨
          (a ∈ s.answers ∧ ∀ d ∈ ds, a.text ≠ d.text)) ∧
        (∀ d ∈ ds, ∃ a ∈ s2.answers, a.question_id = qid ∧ a.text = d.text) ∧
        (∀ qid2, qid2 ≠ qid →
          s2.answers.filter (fun a => a.question_id = qid2) =
            s.answers.filter (fun a => a.question_id = qid2)) ∧
        ((rowsFor s2 qid).map (fun a => a.text)).Nodup ∧
        (∀ t : String, (∃ a ∈ s.answers, a.question_id = qid ∧ a.text = t) →
          (∃ a ∈ s2.answers, a.question_id = qid ∧ a.text = t))) := by
  intro ds
  induction ds with
  | nil =>
    intro s s2 hs2 h1 h2 _ _ _ h6
    subst hs2
    refine ⟨rfl, rfl, le_refl _, h1, h2, ?_, ?_, ?_, h6, ?_⟩
    · intro a ha _
      exact Or.inr ⟨ha, by simp⟩
    · intro d hd
      exact absurd hd (List.not_mem_nil d)
    · intro qid2 _
      rfl
    · intro t h
      exact h
  | cons d ds2 ih =>
    intro s s2 hs2 h1 h2 h3 h4 h5 h6
    simp only [List.foldl_cons] at hs2
    rcases List.nodup_cons.1 h4 with ⟨hdnotin, h4tail⟩
    -- the head step
    cases hfind : dictGet exD d.text with
    | some a0 =>
      -- update branch
      obtain ⟨ha0mem, ha0q, ha0t⟩ := h3 d (List.mem_cons_self d ds2) a0 hfind
      set f : AIAnswerRow → AIAnswerRow := fun a =>
        if a.id = a0.id then { a with scores := d.scores } else a with hf
      have hfid : ∀ a, (f a).id = a.id := by
        intro a
        by_cases h : a.id = a0.id <;> simp [hf, h]
      have hfq : ∀ a, (f a).question_id = a.question_id := by
        intro a
        by_cases h : a.id = a0.id <;> simp [hf, h]
      have hft : ∀ a, (f a).text = a.text := by
        intro a
        by_cases h : a.id = a0.id <;> simp [hf, h]
      have hstep : seedAnswersStep qid exD s (d.text, d) =
          { s with answers := s.answers.map f } := by
        simp only [seedAnswersStep, hfind]
      rw [hstep] at hs2
      set sm : SeedState := { s with answers := s.answers.map f } with hsm
      have hids : sm.answers.map (fun a => a.id) = s.answers.map (fun a => a.id) := by
        simp only [hsm, List.map_map]
        exact List.map_congr_left (fun a _ => hfid a)
      have h1m : (sm.answers.map (fun a => a.id)).Nodup := by rw [hids]; exact h1
      have h2m : ∀ a ∈ sm.answers, a.id < sm.nextAId := by
        intro a ha
        rcases List.mem_map.1 ha with ⟨b, hb, hba⟩
        rw [← hba, hfid]
        exact h2 b hb
      have hrows : rowsFor sm qid = (rowsFor s qid).map f := by
        simp only [rowsFor, hsm]
        exact map_filter_comm f _ (fun a => by rw [hfq]) s.answers
      have htextsm : (rowsFor sm qid).map (fun a => a.text) =
          (rowsFor s qid).map (fun a => a.text) := by
        rw [hrows, List.map_map]
        exact List.map_congr_left (fun a _ => hft a)
      have h6m : ((rowsFor sm qid).map (fun a => a.text)).Nodup := by
        rw [htextsm]; exact h6
      have h3m : ∀ d2 ∈ ds2, ∀ a1, dictGet exD d2.text = some a1 →
          a1 ∈ sm.answers ∧ a1.question_id = qid ∧ a1.text = d2.text := by
        intro d2 hd2 a1 hfind2
        obtain ⟨ha1mem, ha1q, ha1t⟩ := h3 d2 (List.mem_cons_of_mem d hd2) a1 hfind2
        refine ⟨?_, ha1q, ha1t⟩
        have hne : a1 ≠ a0 := by
          intro he
          apply hdnotin
          show d.text ∈ List.map (fun x => x.text) ds2
          rw [← ha0t, ← he, ha1t]
          exact List.mem_map_of_mem (fun x => x.text) hd2
        have hidne : a1.id ≠ a0.id := by
          intro he
          exact hne (List.inj_on_of_nodup_map h1 ha1mem ha0mem he)
        have hfa1 : f a1 = a1 := by simp [hf, hidne]
        rw [← hfa1]
        exact List.mem_map_of_mem f ha1mem
      have h5m : ∀ d2 ∈ ds2, dictGet exD d2.text = none →
          ∀ a ∈ sm.answers, a.question_id = qid → a.text ≠ d2.text := by
        intro d2 hd2 hnone a ha haq
        rcases List.mem_map.1 ha with ⟨b, hb, hba⟩
        rw [← hba, hft]
        rw [← hba, hfq] at haq
        exact h5 d2 (List.mem_cons_of_mem d hd2) hnone b hb haq
      obtain ⟨g1, g2, g3, g4, g5, g6, g7, g8, g9, g10⟩ :=
        ih sm s2 hs2 h1m h2m h3m h4tail h5m h6m
      have hsmq : sm.questions = s.questions := rfl
      have hsmn : sm.nextQId = s.nextQId := rfl
      have hsma : sm.nextAId = s.nextAId := rfl
      refine ⟨g1.trans hsmq, g2.trans hsmn, hsma ▸ g3, g4, g5, ?_, ?_, ?_, g9, ?_⟩
      · -- characterization of this question's rows
        intro a ha haq
        rcases g6 a ha haq with ⟨d2, hd2, ht, hsc⟩ | ⟨hamem, hne⟩
        · exact Or.inl ⟨d2, List.mem_cons_of_mem d hd2, ht, hsc⟩
        · rcases List.mem_map.1 hamem with ⟨b, hb, hba⟩
          by_cases hbid : b.id = a0.id
          · have hba0 : b = a0 := List.inj_on_of_nodup_map h1 hb ha0mem hbid
            have heq : a = { a0 with scores := d.scores } := by
              rw [← hba, hba0]
              simp [hf]
            refine Or.inl ⟨d, List.mem_cons_self d ds2, ?_, ?_⟩
            · rw [heq, ← ha0t]
            · rw [heq]
          · have hfb : f b = b := by simp [hf, hbid]
            have hab : b = a := by rw [← hba, hfb]
            subst hab
            refine Or.inr ⟨hb, ?_⟩
            intro d2 hd2
            rcases List.mem_cons.1 hd2 with rfl | hd2
            · -- a text equal to `d.text` would make this row the dict row `a0`
              intro hat
              apply hbid
              have hmem1 : b ∈ rowsFor s qid := rowsFor_mem.2 ⟨hb, haq⟩
              have hmem0 : a0 ∈ rowsFor s qid := rowsFor_mem.2 ⟨ha0mem, ha0q⟩
              have hba0 : b = a0 :=
                List.inj_on_of_nodup_map h6 hmem1 hmem0 (by rw [hat, ha0t])
              rw [hba0]
            · exact hne d2 hd2
      · -- every desired entry is realized
        intro d2 hd2
        rcases List.mem_cons.1 hd2 with rfl | hd2
        · apply g10
          refine ⟨f a0, List.mem_map_of_mem f ha0mem, ?_, ?_⟩
          · rw [hfq]; exact ha0q
          · rw [hft]; exact ha0t
        · exact g7 d2 hd2
      · -- other questions' rows are untouched
        intro qid2 hq2
        rw [g8 qid2 hq2]
        show (s.answers.map f).filter _ = _
        rw [map_filter_comm f _ (fun a => by rw [hfq]) s.answers]
        apply map_eq_self_of
        intro b hb
        rcases List.mem_filter.1 hb with ⟨hbmem, hbq⟩
        have hbid : b.id ≠ a0.id := by
          intro he
          have hba0 : b = a0 := List.inj_on_of_nodup_map h1 hbmem ha0mem he
          rw [hba0] at hbq
          simp only [decide_eq_true_eq] at hbq
          exact hq2 (hbq.symm.trans ha0q)
        simp [hf, hbid]
      · -- text presence is monotone
        rintro t ⟨a, hamem, haq, hat⟩
        apply g10
        exact ⟨f a, List.mem_map_of_mem f hamem, by rw [hfq]; exact haq,
          by rw [hft]; exact hat⟩
    | none =>
      -- insert branch
      set nrow : AIAnswerRow := ⟨s.nextAId, qid, d.text, d.scores⟩ with hnrow
      have hstep : seedAnswersStep qid exD s (d.text, d) =
          { s with answers := s.answers ++ [nrow], nextAId := s.nextAId + 1 } := by
        simp only [seedAnswersStep, hfind]
      rw [hstep] at hs2
      set sm : SeedState :=
        { s with answers := s.answers ++ [nrow], nextAId := s.nextAId + 1 } with hsm
      have h1m : (sm.answers.map (fun a => a.id)).Nodup := by
        simp only [hsm, List.map_append]
        rw [List.nodup_append]
        refine ⟨h1, by simp, ?_⟩
        intro x hx
        rcases List.mem_map.1 hx with ⟨b, hb, hbx⟩
        simp only [hnrow, List.map_cons, List.map_nil, List.mem_singleton]
        intro hxe
        have := h2 b hb
        rw [hbx, hxe] at this
        exact absurd this (lt_irrefl _)
      have h2m : ∀ a ∈ sm.answers, a.id < sm.nextAId := by
        intro a ha
        rcases List.mem_append.1 ha with ha | ha
        · exact Nat.lt_trans (h2 a ha) (Nat.lt_succ_self _)
        · rcases List.mem_singleton.1 ha with rfl
          exact Nat.lt_succ_self _
      have hrowsm : rowsFor sm qid = rowsFor s qid ++ [nrow] := by
        simp only [rowsFor, hsm, List.filter_append]
        congr 1
        simp [hnrow]
      have hdnew : ∀ a ∈ s.answers, a.question_id = qid → a.text ≠ d.text :=
        h5 d (List.mem_cons_self d ds2) hfind
      have h6m : ((rowsFor sm qid).map (fun a => a.text)).Nodup := by
        rw [hrowsm, List.map_append]
        rw [List.nodup_append]
        refine ⟨h6, by simp, ?_⟩
        intro x hx
        rcases List.mem_map.1 hx with ⟨b, hb, hbx⟩
        have hbr := rowsFor_mem.1 hb
        simp only [hnrow, List.map_cons, List.map_nil, List.mem_singleton]
        intro hxe
        exact hdnew b hbr.1 hbr.2 (hbx.trans hxe)
      have h3m : ∀ d2 ∈ ds2, ∀ a1, dictGet exD d2.text = some a1 →
          a1 ∈ sm.answers ∧ a1.question_id = qid ∧ a1.text = d2.text := by
        intro d2 hd2 a1 hfind2
        obtain ⟨ha1mem, ha1q, ha1t⟩ := h3 d2 (List.mem_cons_of_mem d hd2) a1 hfind2
        exact ⟨List.mem_append_left _ ha1mem, ha1q, ha1t⟩
      have h5m : ∀ d2 ∈ ds2, dictGet exD d2.text = none →
          ∀ a ∈ sm.answers, a.question_id = qid → a.text ≠ d2.text := by
        intro d2 hd2 hnone a ha haq
        rcases List.mem_append.1 ha with ha | ha
        · exact h5 d2 (List.mem_cons_of_mem d hd2) hnone a ha haq
        · rcases List.mem_singleton.1 ha with rfl
          intro he
          apply hdnotin
          show d.text ∈ List.map (fun x => x.text) ds2
          rw [show d.text = d2.text from he]
          exact List.mem_map_of_mem (fun x => x.text) hd2
      obtain ⟨g1, g2, g3, g4, g5, g6, g7, g8, g9, g10⟩ :=
        ih sm s2 hs2 h1m h2m h3m h4tail h5m h6m
      refine ⟨g1, g2, ?_, g4, g5, ?_, ?_, ?_, g9, ?_⟩
      · exact le_trans (Nat.le_succ _) g3
      · intro a ha haq
        rcases g6 a ha haq with ⟨d2, hd2, ht, hsc⟩ | ⟨hamem, hne⟩
        · exact Or.inl ⟨d2, List.mem_cons_of_mem d hd2, ht, hsc⟩
        · rcases List.mem_append.1 hamem with hmem | hmem
          · refine Or.inr ⟨hmem, ?_⟩
            intro d2 hd2
            rcases List.mem_cons.1 hd2 with rfl | hd2
            · exact hdnew a hmem haq
            · exact hne d2 hd2
          · rcases List.mem_singleton.1 hmem with rfl
            exact Or.inl ⟨d, List.mem_cons_self d ds2, rfl, rfl⟩
      · intro d2 hd2
        rcases List.mem_cons.1 hd2 with rfl | hd2
        · apply g10
          exact ⟨nrow, List.mem_append_right _ (List.mem_singleton.2 rfl), rfl, rfl⟩
        · exact g7 d2 hd2
      · intro qid2 hq2
        rw [g8 qid2 hq2]
        show (s.answers ++ [nrow]).filter _ = _
        rw [List.filter_append]
        have hnil : ([nrow].filter (fun a => a.question_id = qid2)) = [] := by
          have hne : decide (nrow.question_id = qid2) = false :=
            decide_eq_false (fun h : qid = qid2 => hq2 h.symm)
          simp only [List.filter_cons, List.filter_nil, hne]
          simp
        rw [hnil, List.append_nil]
      · rintro t ⟨a, hamem, haq, hat⟩
        apply g10
        exact ⟨a, List.mem_append_left _ hamem, haq, hat⟩

/-- The answer rows of question `qid` realize exactly the desired answers:
every row matches a desired (text, scores) pair and every desired text is
present. -/
def settledAnswers (st : SeedState) (qid : Nat) (ds : List SeedAnswer) : Prop :=
  (∀ a ∈ st.answers, a.question_id = qid →
    ∃ d ∈ ds, a.text = d.text ∧ a.scores = d.scores) ∧
  (∀ d ∈ ds, ∃ a ∈ st.answers, a.question_id = qid ∧ a.text = d.text)

theorem foldl_const {α β : Type} (f : α → β → α) (s : α) (l : List β)
    (h : ∀ x ∈ l, f s x = s) : l.foldl f s = s := by
  induction l with
  | nil => rfl
  | cons x xs ih =>
    rw [List.foldl_cons, h x (List.mem_cons_self x xs)]
    exact ih (fun y hy => h y (List.mem_cons_of_mem x hy))

/-- Full behaviour of `processAnswers` on a well-formed table: questions are
untouched, ids stay unique and bounded, the processed question ends up
settled on the desired answers, other questions' rows are untouched, texts
stay duplicate-free, and every row either belongs to the processed question
or was already present. -/
theorem processAnswers_spec (st : SeedState) (qid : Nat) (ds : List SeedAnswer)
    (haN : (st.answers.map (fun a => a.id)).Nodup)
    (haB : ∀ a ∈ st.answers, a.id < st.nextAId)
    (hdsN : (ds.map (fun d => d.text)).Nodup)
    (htN : ∀ qid2 : Nat, ((rowsFor st qid2).map (fun a => a.text)).Nodup) :
    (processAnswers st qid ds).questions = st.questions ∧
      (processAnswers st qid ds).nextQId = st.nextQId ∧
      st.nextAId ≤ (processAnswers st qid ds).nextAId ∧
      ((processAnswers st qid ds).answers.map (fun a => a.id)).Nodup ∧
      (∀ a ∈ (processAnswers st qid ds).answers,
        a.id < (processAnswers st qid ds).nextAId) ∧
      settledAnswers (processAnswers st qid ds) qid ds ∧
      (∀ qid2, qid2 ≠ qid →
        (processAnswers st qid ds).answers.filter (fun a => a.question_id = qid2) =
          st.answers.filter (fun a => a.question_id = qid2)) ∧
      (∀ qid2 : Nat,
        ((rowsFor (processAnswers st qid ds) qid2).map (fun a => a.text)).Nodup) ∧
      (∀ a ∈ (processAnswers st qid ds).answers,
        a.question_id = qid ∨ a ∈ st.answers) := by
  have hdes : buildDict (fun d : SeedAnswer => d.text) ds =
      ds.map (fun d => (d.text, d)) := buildDict_nodup _ _ hdsN
  have hexDfind : ∀ t, dictGet
      (buildDict (fun a : AIAnswerRow => a.text) (rowsFor st qid)) t =
      (rowsFor st qid).find? (fun a => a.text = t) :=
    fun t => dictGet_buildDict_eq_find _ _ t (htN qid)
  have hPA : processAnswers st qid ds =
      ds.foldl (fun s d => seedAnswersStep qid
          (buildDict (fun a : AIAnswerRow => a.text) (rowsFor st qid)) s (d.text, d))
        { st with answers := st.answers.filter (fun a =>
            !(decide (a.question_id = qid) &&
              (ds.find? (fun d => d.text = a.text)).isNone)) } := by
    show (buildDict (fun a : SeedAnswer => a.text) ds).foldl _ _ = _
    rw [delete_phase_eq st qid ds haN (htN qid) hdsN, hdes, List.foldl_map]
  set keep : AIAnswerRow → Bool := fun a =>
    !(decide (a.question_id = qid) && (ds.find? (fun d => d.text = a.text)).isNone)
    with hkeep
  set st1 : SeedState := { st with answers := st.answers.filter keep } with hst1
  have hsub : st1.answers.Sublist st.answers := List.filter_sublist _
  have h1 : (st1.answers.map (fun a => a.id)).Nodup :=
    List.Nodup.sublist (hsub.map _) haN
  have h2 : ∀ a ∈ st1.answers, a.id < st1.nextAId :=
    fun a ha => haB a (hsub.mem ha)
  have hrows1sub : ∀ qid2, (rowsFor st1 qid2).Sublist (rowsFor st qid2) :=
    fun qid2 => List.Sublist.filter _ hsub
  have h6 : ∀ qid2, ((rowsFor st1 qid2).map (fun a => a.text)).Nodup :=
    fun qid2 => List.Nodup.sublist ((hrows1sub qid2).map _) (htN qid2)
  have hmem1 : ∀ a, a ∈ st1.answers ↔ a ∈ st.answers ∧ keep a = true := by
    intro a
    simp only [hst1, List.mem_filter]
  have h3 : ∀ d ∈ ds, ∀ a0,
      dictGet (buildDict (fun a : AIAnswerRow => a.text) (rowsFor st qid)) d.text =
        some a0 →
      a0 ∈ st1.answers ∧ a0.question_id = qid ∧ a0.text = d.text := by
    intro d hd a0 hfind
    rw [hexDfind] at hfind
    have ha0r : a0 ∈ rowsFor st qid := List.mem_of_find?_eq_some hfind
    have ha0p := List.find?_some hfind
    simp only [decide_eq_true_eq] at ha0p
    have ha0m := rowsFor_mem.1 ha0r
    refine ⟨(hmem1 a0).2 ⟨ha0m.1, ?_⟩, ha0m.2, ha0p⟩
    have hsome : (ds.find? (fun d2 => d2.text = a0.text)).isSome = true := by
      rw [List.find?_isSome]
      exact ⟨d, hd, by simp [ha0p]⟩
    have hdq : decide (a0.question_id = qid) = true := decide_eq_true ha0m.2
    simp only [hkeep, hdq, Bool.true_and]
    cases hfd : ds.find? (fun d2 => d2.text = a0.text) with
    | none => rw [hfd] at hsome; exact absurd hsome (by simp)
    | some d0 => simp
  have h5 : ∀ d ∈ ds,
      dictGet (buildDict (fun a : AIAnswerRow => a.text) (rowsFor st qid)) d.text =
        none →
      ∀ a ∈ st1.answers, a.question_id = qid → a.text ≠ d.text := by
    intro d hd hfind a ha haq
    rw [hexDfind] at hfind
    have := List.find?_eq_none.1 hfind a
      (rowsFor_mem.2 ⟨((hmem1 a).1 ha).1, haq⟩)
    simpa using this
  obtain ⟨g1, g2, g3, g4, g5, g6, g7, g8, g9, g10⟩ :=
    seedAnswersFold_spec qid _ ds st1 (processAnswers st qid ds) hPA h1 h2 h3 hdsN h5
      (h6 qid)
  have hq1 : st1.questions = st.questions := rfl
  have hn1 : st1.nextQId = st.nextQId := rfl
  have hna1 : st1.nextAId = st.nextAId := rfl
  have hframe : ∀ qid2, qid2 ≠ qid →
      (processAnswers st qid ds).answers.filter (fun a => a.question_id = qid2) =
        st.answers.filter (fun a => a.question_id = qid2) := by
    intro qid2 hq2
    rw [g8 qid2 hq2]
    show (st.answers.filter keep).filter _ = _
    rw [List.filter_filter]
    apply List.filter_congr
    intro a ha
    by_cases hqa : a.question_id = qid2
    · have hk : keep a = true := by
        simp only [hkeep]
        have : decide (a.question_id = qid) = false :=
          decide_eq_false (fun h => hq2 (hqa ▸ h ▸ rfl))
        simp [this]
      simp [hqa, hk]
    · simp [hqa]
  refine ⟨g1.trans hq1, g2.trans hn1, hna1 ▸ g3, g4, g5, ⟨?_, ?_⟩, hframe, ?_, ?_⟩
  · -- every row of this question realizes a desired answer
    intro a ha haq
    rcases g6 a ha haq with ⟨d, hd, ht, hsc⟩ | ⟨hamem, hne⟩
    · exact ⟨d, hd, ht, hsc⟩
    · exfalso
      have hk := ((hmem1 a).1 hamem).2
      have hdq : decide (a.question_id = qid) = true := decide_eq_true haq
      simp only [hkeep, hdq, Bool.true_and, Bool.not_eq_true'] at hk
      cases hfd : ds.find? (fun d => d.text = a.text) with
      | none => rw [hfd] at hk; simp at hk
      | some d0 =>
        have hd0m := List.mem_of_find?_eq_some hfd
        have hd0p := List.find?_some hfd
        simp only [decide_eq_true_eq] at hd0p
        exact hne d0 hd0m hd0p.symm
  · exact g7
  · -- texts stay duplicate-free for every question
    intro qid2
    by_cases hq2 : qid2 = qid
    · rw [hq2]; exact g9
    · have : rowsFor (processAnswers st qid ds) qid2 = rowsFor st qid2 :=
        hframe qid2 hq2
      rw [this]
      exact htN qid2
  · -- every row belongs to this question or was present before
    intro a ha
    by_cases hqa : a.question_id = qid
    · exact Or.inl hqa
    · right
      have hmem : a ∈ (processAnswers st qid ds).answers.filter
          (fun b => b.question_id = a.question_id) :=
        List.mem_filter.2 ⟨ha, by simp⟩
      rw [hframe a.question_id hqa] at hmem
      exact (List.mem_filter.1 hmem).1

/-- On a state whose rows already realize the desired answers,
`processAnswers` is a no-op: nothing is deleted, every overwrite writes the
value already stored, and nothing is inserted. -/
theorem processAnswers_identity (st : SeedState) (qid : Nat) (ds : List SeedAnswer)
    (haN : (st.answers.map (fun a => a.id)).Nodup)
    (htNq : ((rowsFor st qid).map (fun a => a.text)).Nodup)
    (hdsN : (ds.map (fun d => d.text)).Nodup)
    (hset : settledAnswers st qid ds) :
    processAnswers st qid ds = st := by
  have hdes : buildDict (fun d : SeedAnswer => d.text) ds =
      ds.map (fun d => (d.text, d)) := buildDict_nodup _ _ hdsN
  have hexDfind : ∀ t, dictGet
      (buildDict (fun a : AIAnswerRow => a.text) (rowsFor st qid)) t =
      (rowsFor st qid).find? (fun a => a.text = t) :=
    fun t => dictGet_buildDict_eq_find _ _ t htNq
  have hPA : processAnswers st qid ds =
      ds.foldl (fun s d => seedAnswersStep qid
          (buildDict (fun a : AIAnswerRow => a.text) (rowsFor st qid)) s (d.text, d))
        { st with answers := st.answers.filter (fun a =>
            !(decide (a.question_id = qid) &&
              (ds.find? (fun d => d.text = a.text)).isNone)) } := by
    show (buildDict (fun a : SeedAnswer => a.text) ds).foldl _ _ = _
    rw [delete_phase_eq st qid ds haN htNq hdsN, hdes, List.foldl_map]
  -- the deletion phase keeps everything
  have hkeepall : st.answers.filter (fun a =>
      !(decide (a.question_id = qid) &&
        (ds.find? (fun d => d.text = a.text)).isNone)) = st.answers := by
    rw [List.filter_eq_self]
    intro a ha
    by_cases hqa : a.question_id = qid
    · obtain ⟨d, hd, ht, _⟩ := hset.1 a ha hqa
      have hsome : (ds.find? (fun d2 => d2.text = a.text)).isSome = true := by
        rw [List.find?_isSome]
        exact ⟨d, hd, by simp [ht.symm]⟩
      cases hfd : ds.find? (fun d2 => d2.text = a.text) with
      | none => rw [hfd] at hsome; exact absurd hsome (by simp)
      | some d0 => simp
    · have : decide (a.question_id = qid) = false := decide_eq_false hqa
      simp [this]
  rw [hPA, hkeepall]
  -- each update step rewrites the stored value with itself
  apply foldl_const
  intro d hd
  have hfound : ∃ a0, (rowsFor st qid).find? (fun a => a.text = d.text) = some a0 := by
    obtain ⟨a, ha, haq, hat⟩ := hset.2 d hd
    have : ((rowsFor st qid).find? (fun a => a.text = d.text)).isSome = true := by
      rw [List.find?_isSome]
      exact ⟨a, rowsFor_mem.2 ⟨ha, haq⟩, by simp [hat]⟩
    cases hfd : (rowsFor st qid).find? (fun a => a.text = d.text) with
    | none => rw [hfd] at this; exact absurd this (by simp)
    | some a0 => exact ⟨a0, rfl⟩
  obtain ⟨a0, hfd⟩ := hfound
  have hstep : seedAnswersStep qid
      (buildDict (fun a : AIAnswerRow => a.text) (rowsFor st qid))
      { st with answers := st.answers } (d.text, d) =
      { st with answers := st.answers.map (fun a =>
          if a.id = a0.id then { a with scores := d.scores } else a) } := by
    simp only [seedAnswersStep, hexDfind, hfd]
  have ha0r : a0 ∈ rowsFor st qid := List.mem_of_find?_eq_some hfd
  have ha0p := List.find?_some hfd
  simp only [decide_eq_true_eq] at ha0p
  have ha0m := rowsFor_mem.1 ha0r
  -- the stored scores already are the desired scores
  have hsc : a0.scores = d.scores := by
    obtain ⟨d2, hd2, ht2, hsc2⟩ := hset.1 a0 ha0m.1 ha0m.2
    have : d2 = d := by
      apply List.inj_on_of_nodup_map hdsN hd2 hd
      rw [← ht2, ha0p]
    rw [hsc2, this]
  have hmapid : st.answers.map (fun a =>
      if a.id = a0.id then { a with scores := d.scores } else a) = st.answers := by
    apply map_eq_self_of
    intro b hb
    by_cases hbid : b.id = a0.id
    · have hba0 : b = a0 := List.inj_on_of_nodup_map haN hb ha0m.1 hbid
      rw [if_pos hbid, hba0, ← hsc]
    · rw [if_neg hbid]
  show seedAnswersStep _ _ { st with answers := st.answers } _ = _
  rw [hstep, hmapid]

theorem find?_append_left_none {α : Type} (p : α → Bool) (la lb : List α)
    (h : ∀ x ∈ la, p x = false) : (la ++ lb).find? p = lb.find? p := by
  induction la with
  | nil => rfl
  | cons x xs ih =>
    rw [List.cons_append, List.find?_cons_of_neg _ (by
      rw [h x (List.mem_cons_self x xs)]; exact Bool.false_ne_true),
      ih (fun y hy => h y (List.mem_cons_of_mem x hy))]

theorem lastWithText_append_none (l1 l2 : List AIQuestionRow) (t : String)
    (h : ∀ r ∈ l2, r.text ≠ t) :
    lastWithText (l1 ++ l2) t = lastWithText l1 t := by
  unfold lastWithText
  rw [List.reverse_append]
  exact find?_append_left_none _ _ _ (fun x hx =>
    decide_eq_false (h x (List.mem_reverse.1 hx)))

theorem lastWithText_append_self (l1 : List AIQuestionRow) (r : AIQuestionRow) :
    lastWithText (l1 ++ [r]) r.text = some r := by
  unfold lastWithText
  rw [List.reverse_append]
  simp only [List.reverse_cons, List.reverse_nil, List.nil_append, List.cons_append]
  exact List.find?_cons_of_pos _ (by simp)

theorem lastWithText_mem {l : List AIQuestionRow} {t : String} {r : AIQuestionRow}
    (h : lastWithText l t = some r) : r ∈ l ∧ r.text = t := by
  unfold lastWithText at h
  refine ⟨List.mem_reverse.1 (List.mem_of_find?_eq_some h), ?_⟩
  have := List.find?_some h
  simpa using this

theorem settledAnswers_of_filter_eq (st st2 : SeedState) (qid : Nat)
    (ds : List SeedAnswer)
    (hfe : st2.answers.filter (fun a => a.question_id = qid) =
      st.answers.filter (fun a => a.question_id = qid))
    (h : settledAnswers st qid ds) : settledAnswers st2 qid ds := by
  constructor
  · intro a ha haq
    have hmem : a ∈ st.answers.filter (fun a => a.question_id = qid) := by
      rw [← hfe]
      exact List.mem_filter.2 ⟨ha, by simp [haq]⟩
    rcases List.mem_filter.1 hmem with ⟨hmem2, _⟩
    exact h.1 a hmem2 haq
  · intro d hd
    obtain ⟨a, ha, haq, hat⟩ := h.2 d hd
    have hmem : a ∈ st2.answers.filter (fun a => a.question_id = qid) := by
      rw [hfe]
      exact List.mem_filter.2 ⟨ha, by simp [haq]⟩
    rcases List.mem_filter.1 hmem with ⟨hmem2, hq2⟩
    exact ⟨a, hmem2, haq, hat⟩

/-- Behaviour of one `processQuestion` step on a well-formed state: some
question id gets settled on the desired answers, every other question's rows
are untouched, well-formedness survives, and the questions table either stays
unchanged (text matched) or grows by exactly the one new question row. -/
theorem processQuestion_spec (existing0 : List AIQuestionRow) (st : SeedState)
    (q : SeedQuestion) (hwf : SeedWF st)
    (hdsN : (q.answers.map (fun d => d.text)).Nodup)
    (hexB : ∀ r ∈ existing0, r.id < st.nextQId) :
    ∃ qid,
      ((∃ qrow, lastWithText existing0 q.text = some qrow ∧ qrow.id = qid ∧
          (processQuestion existing0 st q).questions = st.questions) ∨
        (lastWithText existing0 q.text = none ∧ qid = st.nextQId ∧
          (processQuestion existing0 st q).questions =
            st.questions ++ [⟨qid, q.text⟩])) ∧
      SeedWF (processQuestion existing0 st q) ∧
      st.nextQId ≤ (processQuestion existing0 st q).nextQId ∧
      settledAnswers (processQuestion existing0 st q) qid q.answers ∧
      (∀ qid2, qid2 ≠ qid →
        (processQuestion existing0 st q).answers.filter
            (fun a => a.question_id = qid2) =
          st.answers.filter (fun a => a.question_id = qid2)) := by
  cases hlast : lastWithText existing0 q.text with
  | some qrow =>
    have hPQ : processQuestion existing0 st q = processAnswers st qrow.id q.answers := by
      simp only [processQuestion, hlast]
    obtain ⟨g1, g2, g3, g4, g5, g6, g7, g8, g9⟩ :=
      processAnswers_spec st qrow.id q.answers hwf.aNodup hwf.aBound hdsN hwf.textNodup
    refine ⟨qrow.id, Or.inl ⟨qrow, rfl, rfl, by rw [hPQ, g1]⟩, ?_, ?_, ?_, ?_⟩
    · rw [hPQ]
      refine ⟨?_, g4, ?_, g5, ?_, g8⟩
      · rw [g1]; exact hwf.qNodup
      · intro r hr
        rw [g1] at hr
        rw [g2]
        exact hwf.qBound r hr
      · intro a ha
        rw [g2]
        rcases g9 a ha with hq | hmem
        · rw [hq]
          exact hexB qrow ((lastWithText_mem hlast).1)
        · exact hwf.aqBound a hmem
    · rw [hPQ, g2]
    · rw [hPQ]; exact g6
    · rw [hPQ]; exact g7
  | none =>
    set nq : AIQuestionRow := ⟨st.nextQId, q.text⟩ with hnq
    set stq : SeedState := { st with
      questions := st.questions ++ [nq], nextQId := st.nextQId + 1 } with hstq
    have hPQ : processQuestion existing0 st q = processAnswers stq st.nextQId q.answers := by
      simp only [processQuestion, hlast]
    have hrowsq : ∀ qid2, rowsFor stq qid2 = rowsFor st qid2 := fun _ => rfl
    obtain ⟨g1, g2, g3, g4, g5, g6, g7, g8, g9⟩ :=
      processAnswers_spec stq st.nextQId q.answers hwf.aNodup hwf.aBound hdsN
        (fun qid2 => by rw [hrowsq qid2]; exact hwf.textNodup qid2)
    have hstqq : stq.questions = st.questions ++ [nq] := rfl
    refine ⟨st.nextQId, Or.inr ⟨rfl, rfl, by rw [hPQ, g1, hstqq]⟩, ?_, ?_, ?_, ?_⟩
    · rw [hPQ]
      refine ⟨?_, g4, ?_, g5, ?_, g8⟩
      · rw [g1, hstqq, List.map_append, List.nodup_append]
        refine ⟨hwf.qNodup, by simp, ?_⟩
        intro x hx
        rcases List.mem_map.1 hx with ⟨r, hr, hrx⟩
        simp only [hnq, List.map_cons, List.map_nil, List.mem_singleton]
        intro hxe
        have := hwf.qBound r hr
        rw [hrx, hxe] at this
        exact absurd this (lt_irrefl _)
      · intro r hr
        rw [g1, hstqq] at hr
        rw [g2]
        show r.id < stq.nextQId
        rcases List.mem_append.1 hr with hr | hr
        · exact Nat.lt_trans (hwf.qBound r hr) (Nat.lt_succ_self _)
        · rcases List.mem_singleton.1 hr with rfl
          exact Nat.lt_succ_self _
      · intro a ha
        rw [g2]
        show a.question_id < stq.nextQId
        rcases g9 a ha with hq | hmem
        · rw [hq]
          exact Nat.lt_succ_self _
        · exact Nat.lt_trans (hwf.aqBound a hmem) (Nat.lt_succ_self _)
    · rw [hPQ, g2]
      show st.nextQId ≤ stq.nextQId
      exact Nat.le_succ _
    · rw [hPQ]; exact g6
    · rw [hPQ]; exact g7

/-- The store realizes one seed question: the text lookup resolves to a
question whose answer rows realize the desired answers. -/
def settledQ (st : SeedState) (q : SeedQuestion) : Prop :=
  ∃ qrow, lastWithText st.questions q.text = some qrow ∧
    settledAnswers st qrow.id q.answers

/-- Folding `processQuestion` over (a tail of) the seed: well-formedness is
preserved, the question counter only grows, created questions carry processed
texts, every processed question ends up settled, and a question already
settled (with a text not in the tail) stays settled. -/
theorem ensure_fold_spec (st0 : SeedState)
    (hq0B : ∀ r ∈ st0.questions, r.id < st0.nextQId) :
    ∀ (rest : List SeedQuestion) (st : SeedState),
      SeedWF st →
      (rest.map (fun q => q.text)).Nodup →
      (∀ q ∈ rest, (q.answers.map (fun d => d.text)).Nodup) →
      st0.nextQId ≤ st.nextQId →
      (∃ news, st.questions = st0.questions ++ news ∧
        ∀ r ∈ news, r.text ∉ rest.map (fun q => q.text)) →
      (SeedWF (rest.foldl (processQuestion st0.questions) st) ∧
        st.nextQId ≤ (rest.foldl (processQuestion st0.questions) st).nextQId ∧
        (∃ news, (rest.foldl (processQuestion st0.questions) st).questions =
          st.questions ++ news ∧
          ∀ r ∈ news, r.text ∈ rest.map (fun q => q.text)) ∧
        (∀ q ∈ rest, settledQ (rest.foldl (processQuestion st0.questions) st) q) ∧
        (∀ q2 : SeedQuestion, settledQ st q2 →
          q2.text ∉ rest.map (fun q => q.text) →
          settledQ (rest.foldl (processQuestion st0.questions) st) q2)) := by
  intro rest
  induction rest with
  | nil =>
    intro st hwf _ _ _ _
    exact ⟨hwf, le_refl _, ⟨[], by simp, by simp⟩,
      fun q hq => absurd hq (List.not_mem_nil q), fun q2 h _ => h⟩
  | cons q rest2 ih =>
    intro st hwf hrestN hansN hmono hnews
    obtain ⟨news, hnewseq, hnewstex⟩ := hnews
    rcases List.nodup_cons.1 hrestN with ⟨hdnotin, hrestN2⟩
    obtain ⟨qid, hcase, hwfp, hmonop, hsetp, hframep⟩ :=
      processQuestion_spec st0.questions st q hwf
        (hansN q (List.mem_cons_self q rest2))
        (fun r hr => lt_of_lt_of_le (hq0B r hr) hmono)
    set stp := processQuestion st0.questions st q with hstp
    simp only [List.foldl_cons, ← hstp]
    -- the just-processed question is settled at `stp`
    have hsettledp : settledQ stp q := by
      rcases hcase with ⟨qrow, hlast0, hid, hquns⟩ | ⟨hlast0, hid, hqapp⟩
      · refine ⟨qrow, ?_, by rw [hid]; exact hsetp⟩
        rw [hquns, hnewseq]
        rw [lastWithText_append_none st0.questions news q.text ?_]
        · exact hlast0
        · intro r hr he
          exact (hnewstex r hr) (by rw [he]; simp)
      · refine ⟨⟨qid, q.text⟩, ?_, hsetp⟩
        rw [hqapp]
        exact lastWithText_append_self st.questions ⟨qid, q.text⟩
    -- previously settled questions stay settled at `stp`
    have hpresp : ∀ q2 : SeedQuestion, settledQ st q2 →
        q2.text ∉ (q :: rest2).map (fun x => x.text) → settledQ stp q2 := by
      intro q2 ⟨qrow2, hlast2, hset2⟩ hq2tex
      have hq2ne : q2.text ≠ q.text := by
        intro he
        exact hq2tex (by rw [he]; exact List.mem_cons_self _ _)
      have hrow2 := lastWithText_mem hlast2
      have hlast2p : lastWithText stp.questions q2.text = some qrow2 := by
        rcases hcase with ⟨qrow, _, _, hquns⟩ | ⟨_, hid, hqapp⟩
        · rw [hquns]; exact hlast2
        · rw [hqapp, lastWithText_append_none st.questions _ q2.text ?_]
          · exact hlast2
          · intro r hr he
            rcases List.mem_singleton.1 hr with rfl
            exact hq2ne (by rw [← he])
      have hidne : qrow2.id ≠ qid := by
        rcases hcase with ⟨qrow, hlast0, hid, _⟩ | ⟨_, hid, _⟩
        · have hqrowmem : qrow ∈ st.questions := by
            rw [hnewseq]
            exact List.mem_append_left _ (lastWithText_mem hlast0).1
          intro he
          have : qrow2 = qrow :=
            List.inj_on_of_nodup_map hwf.qNodup hrow2.1 hqrowmem (by rw [he, hid])
          apply hq2ne
          rw [← hrow2.2, this, (lastWithText_mem hlast0).2]
        · intro he
          have := hwf.qBound qrow2 hrow2.1
          rw [he, hid] at this
          exact absurd this (lt_irrefl _)
      exact ⟨qrow2, hlast2p,
        settledAnswers_of_filter_eq st stp qrow2.id q2.answers
          (hframep qrow2.id hidne) hset2⟩
    -- hypotheses of the induction step
    have hnewsp : ∃ news2, stp.questions = st0.questions ++ news2 ∧
        ∀ r ∈ news2, r.text ∉ rest2.map (fun x => x.text) := by
      rcases hcase with ⟨qrow, _, _, hquns⟩ | ⟨_, hid, hqapp⟩
      · exact ⟨news, by rw [hquns, hnewseq], fun r hr he =>
          (hnewstex r hr) (List.mem_cons_of_mem _ he)⟩
      · refine ⟨news ++ [⟨qid, q.text⟩], ?_, ?_⟩
        · rw [hqapp, hnewseq, List.append_assoc]
        · intro r hr
          rcases List.mem_append.1 hr with hr | hr
          · exact fun he => (hnewstex r hr) (List.mem_cons_of_mem _ he)
          · rcases List.mem_singleton.1 hr with rfl
            exact hdnotin
    obtain ⟨hwfF, hmonoF, hnewsF, hsetF, hpresF⟩ :=
      ih stp hwfp hrestN2 (fun x hx => hansN x (List.mem_cons_of_mem q hx))
        (le_trans (le_trans hmono hmonop) (le_refl _)) hnewsp
    refine ⟨hwfF, le_trans hmonop hmonoF, ?_, ?_, ?_⟩
    · -- created questions carry processed texts
      obtain ⟨news2, hn2eq, hn2tex⟩ := hnewsF
      rcases hcase with ⟨qrow, _, _, hquns⟩ | ⟨_, hid, hqapp⟩
      · refine ⟨news2, by rw [hn2eq, hquns], ?_⟩
        intro r hr
        exact List.mem_cons_of_mem _ (hn2tex r hr)
      · refine ⟨⟨qid, q.text⟩ :: news2, ?_, ?_⟩
        · rw [hn2eq, hqapp]
          simp
        · intro r hr
          rcases List.mem_cons.1 hr with rfl | hr
          · exact List.mem_cons_self _ _
          · exact List.mem_cons_of_mem _ (hn2tex r hr)
    · -- every processed question settled
      intro x hx
      rcases List.mem_cons.1 hx with rfl | hx
      · exact hpresF x hsettledp (by simpa using hdnotin)
      · exact hsetF x hx
    · -- previously settled stay settled
      intro q2 hq2 hq2tex
      refine hpresF q2 (hpresp q2 hq2 hq2tex) ?_
      intro he
      exact hq2tex (List.mem_cons_of_mem _ he)

/-- On a state where every seed question is already settled, the reconciler
is the identity. -/
theorem ensure_ai_seed_identity (seed : List SeedQuestion) (st1 : SeedState)
    (hwf : SeedWF st1)
    (hansN : ∀ q ∈ seed, (q.answers.map (fun d => d.text)).Nodup)
    (hset : ∀ q ∈ seed, settledQ st1 q) :
    ensure_ai_seed seed st1 = st1 := by
  unfold ensure_ai_seed
  apply foldl_const
  intro q hq
  obtain ⟨qrow, hlast, hsetA⟩ := hset q hq
  have hPQ : processQuestion st1.questions st1 q =
      processAnswers st1 qrow.id q.answers := by
    simp only [processQuestion, hlast]
  rw [hPQ]
  exact processAnswers_identity st1 qrow.id q.answers hwf.aNodup
    (hwf.textNodup qrow.id) (hansN q hq) hsetA

/-- C4: the seed reconciler is idempotent — with distinct seed question texts,
distinct answer texts per question, and a well-formed store, a second run on
the identical input changes nothing: question and answer rows (and the id
counters) are exactly those left by the first run. -/
theorem C4_ensure_ai_seed_idempotent (seed : List SeedQuestion) (st : SeedState)
    (hseedN : (seed.map (fun q => q.text)).Nodup)
    (hansN : ∀ q ∈ seed, (q.answers.map (fun d => d.text)).Nodup)
    (hwf : SeedWF st) :
    ensure_ai_seed seed (ensure_ai_seed seed st) = ensure_ai_seed seed st := by
  obtain ⟨hwfF, _, _, hsetF, _⟩ :=
    ensure_fold_spec st hwf.qBound seed st hwf hseedN hansN (le_refl _)
      ⟨[], by simp, by simp⟩
  exact ensure_ai_seed_identity seed _ hwfF hansN hsetF

/-- Witness for C4: a one-question seed reconciled into an empty store — the
first run creates the rows, the second run is a no-op. -/
theorem C4_ensure_ai_seed_idempotent_witness :
    ensure_ai_seed [⟨"Q1", [⟨"A1", [("math_inf", 3)]⟩, ⟨"A2", []⟩]⟩]
        (ensure_ai_seed [⟨"Q1", [⟨"A1", [("math_inf", 3)]⟩, ⟨"A2", []⟩]⟩]
          ⟨[], [], 1, 1⟩) =
      ensure_ai_seed [⟨"Q1", [⟨"A1", [("math_inf", 3)]⟩, ⟨"A2", []⟩]⟩]
        ⟨[], [], 1, 1⟩ :=
  C4_ensure_ai_seed_idempotent [⟨"Q1", [⟨"A1", [("math_inf", 3)]⟩, ⟨"A2", []⟩]⟩]
    ⟨[], [], 1, 1⟩ (by decide) (by decide)
    ⟨by simp, by simp, by simp, by simp, by simp, fun qid => by simp [rowsFor]⟩

end UniversitySystem
